import Mathlib

/-!
# swagger-api-client: a shallow embedding of `src/index.js`

The helpers of `src/index.js` (`validateUrlArgs`, `validateBodyArgs`, `formatArgs`,
`formatQuery`, `determineArgTypes`, `checkForMissingBodyArgs`), the generated method with
its request and its response handler, the merge of the request headers, and the
construction of the client tree are embedded as Lean functions.
An exception thrown by the JavaScript code is a value `Except.error msg`.

Conventions of the embedding:

* a JavaScript object is the list of its own enumerable properties in `Object.keys` order;
* `paramType` is one of the three keys the source reads (`path`, `query`, `body`) or any
  other string;
* a number is an integer (printed in decimal by `ToString`);
* `humps.camelize`, `humps.camelizeKeys`, `JSON.stringify` and
  `String.prototype.toLowerCase` are library functions outside the repository and are
  parameters of the definitions that call them; the outcome of `res.json()` is part of the
  response.
-/

namespace SwaggerApiClient

/-! ## JavaScript values -/

/-- JavaScript values that reach the helpers as call arguments or property values. -/
inductive Value where
  | undefined : Value
  | null : Value
  | bool (b : Bool) : Value
  | num (n : Int) : Value
  | str (s : String) : Value
  | obj (props : List (String × Value)) : Value

/-- The test `typeof v === 'object'`: true of objects and of `null`. -/
def Value.typeofObject : Value → Bool
  | .null => true
  | .obj _ => true
  | _ => false

/-- JavaScript truthiness, as tested by `if ( v )` and `!v`. -/
def Value.truthy : Value → Bool
  | .undefined => false
  | .null => false
  | .bool b => b
  | .num n => n != 0
  | .str s => s != ""
  | .obj _ => true

/-- The abstract operation `ToString` on the modelled values; a number is an integer of
magnitude below `10 ^ 21`, which JavaScript prints in decimal. -/
def jsToString : Value → String
  | .undefined => "undefined"
  | .null => "null"
  | .bool true => "true"
  | .bool false => "false"
  | .num n => toString n
  | .str s => s
  | .obj _ => "[object Object]"

/-- The message of the `TypeError` raised by `Object.keys` on `null` or `undefined`. -/
def typeErrorNullish : String := "TypeError: Cannot convert undefined or null to object"

/-- Number of UTF-16 code units of a string (the JavaScript `length`). -/
def utf16Length (s : String) : Nat :=
  s.toList.foldl (fun n c => n + (if c.toNat < 65536 then 1 else 2)) 0

/-- `Object.keys(v)`: throws on `null` and `undefined`, lists the own enumerable keys
otherwise (the indices for a string, nothing for a boolean or a number). -/
def objectKeys : Value → Except String (List String)
  | .obj props => .ok (props.map Prod.fst)
  | .null => .error typeErrorNullish
  | .undefined => .error typeErrorNullish
  | .bool _ => .ok []
  | .num _ => .ok []
  | .str s => .ok ((List.range (utf16Length s)).map toString)

/-- Property read `o[key]` on an object given by its property list. -/
def getProp (props : List (String × Value)) (key : String) : Value :=
  match props.find? (fun kv => kv.1 == key) with
  | some kv => kv.2
  | none => .undefined

/-! ## The discovery document -/

/-- The string `paramType` of a declared parameter: the three values the source reads, or
any other string (such as `header` and `form`), given by `other`. The string of `other` is
not `path`, `query` or `body`, and is neither an integer index nor the name of a property
of `Object.prototype`, so that the objects keyed by it keep their keys in insertion order
and find no inherited property. -/
inductive ParamType where
  | path
  | query
  | body
  | other (name : String)
  deriving DecidableEq

/-- One entry of `operation.parameters`. -/
structure Parameter where
  name : String
  paramType : ParamType
  deriving DecidableEq

/-- One entry of `apiDetails.operations`. -/
structure Operation where
  nickname : String
  method : String
  summary : String
  notes : String
  parameters : List Parameter
  deriving DecidableEq

/-- One entry of a group document's `apis`. -/
structure OperationGroup where
  path : String
  description : String
  operations : List Operation
  deriving DecidableEq

/-- One entry of the root document's `apis`. -/
structure GroupRef where
  path : String
  description : String
  deriving DecidableEq

/-! ## Validation -/

/-- The `validateUrlArgs` helper: throws when the number of classified path values differs
from the number of declared path parameters (the later `forEach` has an empty body). -/
def validateUrlArgs (requiredArgs : List Parameter) (args : List Value) : Except String Unit :=
  if args.length ≠ requiredArgs.length then
    .error (toString requiredArgs.length ++ " required, only recieved " ++ toString args.length
      ++ ". [ " ++ String.intercalate "," (requiredArgs.map (fun arg => arg.name)) ++ " ]")
  else
    .ok ()

/-- The `checkForMissingBodyArgs` helper: the `filter` keeps the declared arguments whose
name satisfies `Object.keys(body).indexOf(arg.name) > -1`; the callback reads
`Object.keys(body)` once per declared argument. -/
def checkForMissingBodyArgs : List Parameter → Value → Except String (List Parameter)
  | [], _ => pure []
  | arg :: rest, body => do
    let keys ← objectKeys body
    let kept ← checkForMissingBodyArgs rest body
    pure (if arg.name ∈ keys then arg :: kept else kept)

/-- The `validateBodyArgs` helper: throws when `checkForMissingBodyArgs` returns a non-empty
array; the message joins the returned parameter objects, each printed by `ToString`. The
closing `Object.keys(body).forEach` has a callback without effect. -/
def validateBodyArgs (requiredArgs : List Parameter) (body : Value) : Except String Unit := do
  let missingBodyArgs ← checkForMissingBodyArgs requiredArgs body
  if missingBodyArgs.length > 0 then
    .error ("Missing body args [ "
      ++ String.intercalate "," (missingBodyArgs.map (fun _ => "[object Object]")) ++ " ]")
  else do
    let _ ← objectKeys body
    pure ()

/-! ## Argument classification -/

/-- The assignment `counts[ t ] = (counts[ t ] || 0) + inc` on the `counts` object, kept in
key-insertion order. -/
def bumpCount (t : ParamType) (inc : Nat) : List (ParamType × Nat) → List (ParamType × Nat)
  | [] => [(t, 0 + inc)]
  | (k, c) :: rest => if k = t then (k, c + inc) :: rest else (k, c) :: bumpCount t inc rest

/-- Property read `counts[ t ]` for a key that is present (`0` stands in for an absent key,
which the source never reads). -/
def countOf (counts : List (ParamType × Nat)) (t : ParamType) : Nat :=
  match counts.find? (fun kc => kc.1 == t) with
  | some kc => kc.2
  | none => 0

/-- The `counts` object after the `forEach` over the declared parameters. -/
def tally (objKeys : List String) (operationParams : List Parameter) : List (ParamType × Nat) :=
  operationParams.foldl
    (fun counts param => bumpCount param.paramType (if param.name ∈ objKeys then 1 else 0) counts)
    []

/-- The callback of the final `reduce` of `determineArgTypes`. -/
def pickMax (counts : List (ParamType × Nat)) (maxKey type : ParamType) : ParamType :=
  if max (countOf counts maxKey) (countOf counts type) = countOf counts type then type else maxKey

/-- The `determineArgTypes` helper. `none` is the JavaScript `undefined`, returned when no
parameter is declared (`Object.keys(counts)[ 0 ]` of an empty `counts`). -/
def determineArgTypes (obj : Value) (operationParams : List Parameter) :
    Except String (Option ParamType) := do
  let objKeys ← objectKeys obj
  let counts := tally objKeys operationParams
  match counts.map Prod.fst with
  | [] => pure none
  | k0 :: ks => pure (some ((k0 :: ks).foldl (pickMax counts) k0))

/-- The `returnValues` object of `formatArgs`: the `path` array, the `query` and `body`
properties (`none` is a property that has not been written), and in `others` the properties
written under any other key: the `paramType` string of an `other` bucket, or `undefined`
when `determineArgTypes` returns `undefined`. -/
structure ReturnValues where
  path : List Value
  query : Option Value
  body : Option Value
  others : List (String × Value)

/-- The property key that `returnValues[ type ]` reads for a `type` that is not `path`,
`query` or `body`: the `paramType` string, or `undefined` for the value `undefined`. -/
def otherKey : Option ParamType → String
  | some (.other name) => name
  | _ => "undefined"

/-- One iteration of the loop of `formatArgs` on the argument `nextArg`. A property that
has been written holds a non-null object, which is truthy, so `!returnValues[ type ]` holds
exactly when the property named by `type` has not been written; `returnValues.path` is an
array, which is truthy as well. -/
def formatArgsStep (operationParams : List Parameter) (returnValues : ReturnValues)
    (nextArg : Value) : Except String ReturnValues :=
  if nextArg.typeofObject then do
    let type ← determineArgTypes nextArg operationParams
    match type with
    | some .path => pure { returnValues with path := returnValues.path ++ [nextArg] }
    | some .query =>
      match returnValues.query with
      | none => pure { returnValues with query := some nextArg }
      | some _ => pure { returnValues with path := returnValues.path ++ [nextArg] }
    | some .body =>
      match returnValues.body with
      | none => pure { returnValues with body := some nextArg }
      | some _ => pure { returnValues with path := returnValues.path ++ [nextArg] }
    | other =>
      match returnValues.others.lookup (otherKey other) with
      | none =>
        pure { returnValues with others := returnValues.others ++ [(otherKey other, nextArg)] }
      | some _ => pure { returnValues with path := returnValues.path ++ [nextArg] }
  else
    pure { returnValues with path := returnValues.path ++ [nextArg] }

/-- The loop of `formatArgs` over the arguments in the order it visits them (last first). -/
def formatArgsLoop (operationParams : List Parameter) :
    List Value → ReturnValues → Except String ReturnValues
  | [], returnValues => pure returnValues
  | nextArg :: rest, returnValues => do
    let next ← formatArgsStep operationParams returnValues nextArg
    formatArgsLoop operationParams rest next

/-- The `formatArgs` helper: the triple `[ path, query, body ]`. -/
def formatArgs (args : List Value) (method : String) (operationParams : List Parameter) :
    Except String (List Value × Option Value × Option Value) := do
  let _ := method
  let returnValues ← formatArgsLoop operationParams args.reverse
    { path := [], query := none, body := none, others := [] }
  pure (returnValues.path, returnValues.query, returnValues.body)

/-! ## Strings: `String.prototype.replace` and the two regular expressions -/

/-- Expansion of the replacement text of `str.replace(pattern, text)` for a string pattern
(`GetSubstitution` with no captures): `$$` is a dollar sign, `$&` the matched substring,
a dollar sign followed by a backtick (code 96) the text before the match, a dollar sign
followed by an apostrophe (code 39) the text after it; any other character stands for itself. -/
def expandReplacement (matched before after : List Char) : List Char → List Char
  | [] => []
  | [d] => [d]
  | d :: c :: more =>
    if d = '$' then
      if c = '$' then '$' :: expandReplacement matched before after more
      else if c = '&' then matched ++ expandReplacement matched before after more
      else if c.toNat = 96 then before ++ expandReplacement matched before after more
      else if c.toNat = 39 then after ++ expandReplacement matched before after more
      else d :: expandReplacement matched before after (c :: more)
    else d :: expandReplacement matched before after (c :: more)

/-- Splits `s` at the first occurrence of `pat` into the text before and the text after. -/
def splitAtFirst (pat : List Char) : List Char → Option (List Char × List Char)
  | [] => if pat = [] then some ([], []) else none
  | c :: cs =>
    if pat.isPrefixOf (c :: cs) then some ([], (c :: cs).drop pat.length)
    else (splitAtFirst pat cs).map (fun ba => (c :: ba.1, ba.2))

/-- The call `s.replace(pat, replacement)` with a string pattern: only the first occurrence
is replaced, and `s` is returned unchanged when there is none. -/
def replaceFirst (s pat replacement : List Char) : List Char :=
  match splitAtFirst pat s with
  | none => s
  | some (before, after) => before ++ expandReplacement pat before after replacement ++ after

/-- The call `s.replace(pat, replacement)` on strings. -/
def jsReplace (s pat replacement : String) : String :=
  String.mk (replaceFirst s.toList pat.toList replacement.toList)

/-- The class `\s` of a regular expression without the `u` flag. -/
def isJsSpace (c : Char) : Bool :=
  let n := c.toNat
  (9 ≤ n && n ≤ 13) || n = 32 || n = 160 || n = 5760 || (8192 ≤ n && n ≤ 8202)
    || n = 8232 || n = 8233 || n = 8239 || n = 8287 || n = 12288 || n = 65279

/-- The class `[A-z]`: the code units from `A` (65) to `z` (122). -/
def isAtoz (c : Char) : Bool :=
  65 ≤ c.toNat && c.toNat ≤ 122

/-- The call `notes.match(/\?[^\s]+/)`: the leftmost `?` that is followed by a character
outside `\s`, together with the longest run of such characters; `none` is `null`. -/
def matchTemplate : List Char → Option (List Char)
  | [] => none
  | c :: cs =>
    if c = '?' then
      match cs with
      | [] => none
      | d :: _ =>
        if isJsSpace d then matchTemplate cs
        else some (c :: cs.takeWhile (fun x => !isJsSpace x))
    else matchTemplate cs

/-- Length of the match of `/&?[A-z]+\={[^}]+}/` anchored at the head of the input. Each
quantifier is greedy and is followed by a character outside its class, so the only
candidate is the longest run. -/
def matchUnfilled (s : List Char) : Option Nat :=
  let amp := if s.head? = some '&' then 1 else 0
  let s1 := s.drop amp
  let keyRun := s1.takeWhile isAtoz
  let s2 := s1.dropWhile isAtoz
  if keyRun.length = 0 then none
  else
    match s2 with
    | e :: b :: s3 =>
      if e = '=' ∧ b = '{' then
        let inner := s3.takeWhile (fun x => x != '}')
        let s4 := s3.dropWhile (fun x => x != '}')
        if inner.length = 0 then none
        else
          match s4 with
          | [] => none
          | _ :: _ => some (amp + keyRun.length + 2 + inner.length + 1)
      else none
    | _ => none

/-- The call `s.replace(/&?[A-z]+\={[^}]+}/g, '')`: `skip` counts the characters of the
current match that are still to be dropped. -/
def stripUnfilled : Nat → List Char → List Char
  | _, [] => []
  | skip + 1, _ :: cs => stripUnfilled skip cs
  | 0, c :: cs =>
    match matchUnfilled (c :: cs) with
    | some n => stripUnfilled (n - 1) cs
    | none => c :: stripUnfilled 0 cs

/-- The `formatQuery` helper, for a `query` that is `undefined` (`none`) or an object, the
values `formatArgs` returns; `null[ 0 ]` on a failed match throws a `TypeError`. -/
def formatQuery (query : Option Value) (operationNotes : String) : Except String String :=
  match query with
  | none => pure ""
  | some q =>
    if !q.truthy then pure ""
    else
      match matchTemplate operationNotes.toList with
      | none => .error "TypeError: Cannot read properties of null (reading '0')"
      | some template => do
        let keys ← objectKeys q
        let props := match q with
          | .obj props => props
          | _ => []
        let queryString := keys.foldl
          (fun str key => replaceFirst str ("\x7b" ++ key ++ "\x7d").toList (jsToString (getProp props key)).toList)
          template
        pure (String.mk (stripUnfilled 0 queryString))

/-! ## The generated method -/

/-- The `reduce` of the generated method that fills the path template: the placeholder of
the `ix`-th declared path parameter is replaced by `urlArgs[ ix ]`. -/
def substitutePath (operationUrlArgs : List Parameter) (urlArgs : List Value)
    (template : String) : String :=
  (operationUrlArgs.zip (List.range operationUrlArgs.length)).foldl
    (fun str p => jsReplace str ("\x7b" ++ p.1.name ++ "\x7d") (jsToString (urlArgs.getD p.2 .undefined)))
    template

/-- The generated method `childApi[ apiName ]` up to the `fetch` call: the request URL, or
the exception thrown before any request is made. -/
def requestUrl (apiBase templatePath : String) (operation : Operation) (args : List Value) :
    Except String String := do
  let operationUrlArgs := operation.parameters.filter (fun param => param.paramType = .path)
  let operationBodyArgs := operation.parameters.filter (fun param => param.paramType = .body)
  let (urlArgs, query, body) ← formatArgs args operation.method operation.parameters
  validateUrlArgs operationUrlArgs urlArgs
  match body with
  | some b => if b.truthy then validateBodyArgs operationBodyArgs b else pure ()
  | none => pure ()
  let path := substitutePath operationUrlArgs urlArgs templatePath
  let queryString ← formatQuery query operation.notes
  pure (apiBase ++ path ++ queryString)

/-! ## The client tree -/

/-- The assignment `o[ key ] = value` on an object kept in key-insertion order (keys that
are integer indices, which JavaScript lists first, are not modelled). -/
def assign {α : Type} (key : String) (value : α) : List (String × α) → List (String × α)
  | [] => [(key, value)]
  | (k, v) :: rest =>
    if k = key then (k, value) :: rest else (k, v) :: assign key value rest

/-- The string `nickname[ 0 ].toLowerCase() + nickname.slice(1)` of a non-empty nickname.
`nickname[ 0 ]` is the first UTF-16 code unit: of a character outside the BMP it is a lone
surrogate, which `toLowerCase` leaves alone, so the sum is the nickname itself. -/
def lowerFirst (toLowerCase : String → String) (nickname : String) : String :=
  match nickname.toList with
  | [] => ""
  | c :: cs => if c.toNat < 65536 then toLowerCase (String.mk [c]) ++ String.mk cs else nickname

/-- The name `apiName` of a generated method; reading `toLowerCase` of `nickname[ 0 ]`
throws when the nickname is empty. -/
def apiNameOf (camelize toLowerCase : String → String) (nickname : String) :
    Except String String :=
  if nickname.toList = [] then
    .error "TypeError: Cannot read properties of undefined (reading 'toLowerCase')"
  else
    .ok (camelize (lowerFirst toLowerCase nickname))

/-- The name `rootApiBlock` of a group: its path without its first slash, camelized. -/
def rootApiBlockOf (camelize : String → String) (rootApiDetails : GroupRef) : String :=
  camelize (jsReplace rootApiDetails.path "/" "")

/-- A generated method `childApi[ apiName ]`: a closure over `apiDetails.path` and
`operation`. -/
structure GeneratedMethod where
  path : String
  operation : Operation
  deriving DecidableEq

/-- A member of the `api` object: the `printDocs` function or the `childApi` of a group. -/
inductive Member where
  | printDocs : Member
  | child (methods : List (String × GeneratedMethod)) : Member
  deriving DecidableEq

/-- The two nested `forEach` loops that fill one `childApi` from a group document. -/
def fillChild (camelize toLowerCase : String → String) (groupDocument : List OperationGroup) :
    Except String (List (String × GeneratedMethod)) :=
  groupDocument.foldlM
    (fun childApi apiDetails =>
      apiDetails.operations.foldlM
        (fun childApi operation => do
          let apiName ← apiNameOf camelize toLowerCase operation.nickname
          pure (assign apiName { path := apiDetails.path, operation := operation } childApi))
        childApi)
    []

/-- The `collectSwaggerDocs` function on the fetched documents: every entry of the root
document comes with the group document fetched for it. Each group owns its `childApi`, so
the resolved `api` does not depend on the order in which the fetches complete; an exception
in any group rejects the whole construction. -/
def collectSwaggerDocs (camelize toLowerCase : String → String)
    (groups : List (GroupRef × List OperationGroup)) : Except String (List (String × Member)) :=
  groups.foldlM
    (fun api group => do
      let childApi ← fillChild camelize toLowerCase group.2
      pure (assign (rootApiBlockOf camelize group.1) (Member.child childApi) api))
    [("printDocs", Member.printDocs)]

/-- The exported `buildApiClient`, which returns what `collectSwaggerDocs` returns. -/
def buildApiClient (camelize toLowerCase : String → String)
    (groups : List (GroupRef × List OperationGroup)) : Except String (List (String × Member)) :=
  collectSwaggerDocs camelize toLowerCase groups

/-- The children of the client tree that are groups. -/
def groupChildren (api : List (String × Member)) :
    List (String × List (String × GeneratedMethod)) :=
  api.filterMap (fun m =>
    match m.2 with
    | .child methods => some (m.1, methods)
    | .printDocs => none)

/-! ## Request headers and the response handler -/

/-- The two default headers of `collectSwaggerDocs`, in the order of the object literal. -/
def defaultHeaders : List (String × String) :=
  [("Accept", "application/json"), ("Content-Type", "application/json")]

/-- The object literal that `collectSwaggerDocs` assigns to `headers`: the spread copies the
own properties of the caller's `headers` (none when it is `undefined`) onto the two
defaults, in key order. -/
def mergeHeaders (headers : List (String × String)) : List (String × String) :=
  headers.foldl (fun merged kv => assign kv.1 kv.2 merged) defaultHeaders

/-- The arguments of one call of `fetch`: the URL and the options `method`, `body` and
`headers` (`none` is an option that is not given or is `undefined`). -/
structure FetchCall where
  url : String
  method : Option String
  body : Option String
  headers : List (String × String)

/-- The call `fetch(swaggerUrl, { headers, })` for the root document. -/
def rootFetch (swaggerUrl : String) (headers : List (String × String)) : FetchCall :=
  { url := swaggerUrl, method := none, body := none, headers := mergeHeaders headers }

/-- The call of `fetch` for the document of the group `rootApiDetails`. -/
def groupFetch (swaggerUrl : String) (headers : List (String × String))
    (rootApiDetails : GroupRef) : FetchCall :=
  { url := swaggerUrl ++ rootApiDetails.path, method := none, body := none,
    headers := mergeHeaders headers }

/-- The call of `fetch` of the generated method, or the exception thrown before it;
`JSON.stringify` is a parameter and is applied to the body component when it is defined. -/
def generatedFetch (stringify : Value → String) (headers : List (String × String))
    (apiBase templatePath : String) (operation : Operation) (args : List Value) :
    Except String FetchCall := do
  let (_, _, body) ← formatArgs args operation.method operation.parameters
  let url ← requestUrl apiBase templatePath operation args
  pure { url := url, method := some operation.method, body := body.map stringify,
         headers := mergeHeaders headers }

/-- What the response handler reads of a response: the status, the status text, the value
of `res.headers.get('content-type')` (`none` is `null`) and the outcome of `res.json()`. -/
structure Response where
  status : Nat
  statusText : String
  contentType : Option String
  json : Except String Value

/-- The value the generated method resolves with: the raw response, the camelized JSON
value, or `undefined` when no branch returns. -/
inductive Resolution where
  | response (res : Response) : Resolution
  | json (value : Value) : Resolution
  | undefined : Resolution

/-- The test `s.indexOf(pat) > -1`. -/
def indexOfFound (s pat : String) : Bool :=
  (splitAtFirst pat.toList s.toList).isSome

/-- The response handler of the generated method; `humps.camelizeKeys` is a parameter. An
error is the exception thrown by the handler or the rejection of `res.json()`. -/
def handleResponse (camelizeKeys : Value → Value) (res : Response) : Except String Resolution :=
  if res.status = 200 then
    match res.contentType with
    | none => .error "TypeError: Cannot read properties of null (reading 'indexOf')"
    | some contentType =>
      if indexOfFound contentType "text/html" then pure (.response res)
      else if indexOfFound contentType "application/json" then
        match res.json with
        | .ok value => pure (.json (camelizeKeys value))
        | .error e => .error e
      else pure .undefined
  else
    .error ("API ERROR: " ++ toString res.status ++ " " ++ res.statusText)

/-! ## Specification-side notions -/

/-- Number of declared parameters of bucket `t` whose name is a key of the object. -/
def bucketCount (objKeys : List String) (operationParams : List Parameter) (t : ParamType) : Nat :=
  (operationParams.filter (fun p => decide (p.paramType = t ∧ p.name ∈ objKeys))).length

/-- The declared `paramType`s, in parameter-declaration order. -/
def declaredTypes (operationParams : List Parameter) : List ParamType :=
  operationParams.map (fun p => p.paramType)

/-- An argument that `formatArgs` sends to `determineArgTypes` and that is inferred as
bucket `t`. -/
def inferredAs (operationParams : List Parameter) (t : ParamType) (arg : Value) : Bool :=
  match arg with
  | .obj props =>
    match determineArgTypes (.obj props) operationParams with
    | .ok (some r) => decide (r = t)
    | _ => false
  | _ => false

/-- The component of the result of `formatArgs` that belongs to a bucket (none for `path`,
whose values are in the path list, and none for an `other` bucket, which is not returned). -/
def componentOf (result : List Value × Option Value × Option Value) : ParamType → Option Value
  | .query => result.2.1
  | .body => result.2.2
  | _ => none

/-- The update `returnValues.path.push(nextArg)`. -/
def pushPath (rv : ReturnValues) (a : Value) : ReturnValues :=
  { rv with path := rv.path ++ [a] }

/-- The property of `returnValues` that is returned for a bucket (`path` holds the array,
and the property of an `other` bucket is not returned). -/
def ReturnValues.slot (rv : ReturnValues) : ParamType → Option Value
  | .query => rv.query
  | .body => rv.body
  | _ => none

/-- The test `typeof v !== 'object'` as a filter on lists. -/
def isScalar (a : Value) : Bool := !a.typeofObject

/-- The assignment `returnValues[ B ] = a` for the bucket `B`. -/
def ReturnValues.setSlot (rv : ReturnValues) (B : ParamType) (a : Value) : ReturnValues :=
  match B with
  | .query => { rv with query := some a }
  | .body => { rv with body := some a }
  | _ => rv

/-- The members expected for a group document: one per operation, in document order. -/
def expectedMethods (camelize toLowerCase : String → String) (groupDocument : List OperationGroup) :
    List (String × GeneratedMethod) :=
  groupDocument.flatMap (fun apiDetails =>
    apiDetails.operations.map (fun operation =>
      (camelize (lowerFirst toLowerCase operation.nickname),
        { path := apiDetails.path, operation := operation })))

/-- The child expected for a group: its name and its members. -/
def expectedChild (camelize toLowerCase : String → String)
    (group : GroupRef × List OperationGroup) : String × List (String × GeneratedMethod) :=
  (rootApiBlockOf camelize group.1, expectedMethods camelize toLowerCase group.2)

/-- Number of operations of a group document, over all its entries. -/
def operationCount (groupDocument : List OperationGroup) : Nat :=
  (groupDocument.map (fun apiDetails => apiDetails.operations.length)).sum

/-- The contribution of a component to the count of arguments: 1 when defined, else 0. -/
def definedCount : Option Value → Nat
  | none => 0
  | some _ => 1

/-! ## Sample inputs -/

/-- An operation with the two path parameters `id` and `postId`. -/
def postOperation : Operation :=
  { nickname := "GetPost", method := "GET", summary := "", notes := "",
    parameters := [⟨"id", .path⟩, ⟨"postId", .path⟩] }

/-- Notes that carry the query template `?limit={limit}&offset={offset}`. -/
def listNotes : String := "List the items ?limit={limit}&offset={offset} of a user"

/-- Declared parameters of the three buckets. -/
def itemParams : List Parameter :=
  [⟨"id", .path⟩, ⟨"limit", .query⟩, ⟨"offset", .query⟩, ⟨"name", .body⟩]

/-- The function `toLowerCase` on ASCII strings. -/
def asciiLowerCase (s : String) : String :=
  String.mk (s.toList.map Char.toLower)

/-- An operation with the nickname `GetUser`. -/
def getUserOperation : Operation :=
  { nickname := "GetUser", method := "GET", summary := "", notes := "",
    parameters := [⟨"id", .path⟩] }

/-- An operation with the nickname `getUser`. -/
def deleteUserOperation : Operation :=
  { nickname := "getUser", method := "DELETE", summary := "", notes := "",
    parameters := [⟨"id", .path⟩] }

/-- An operation with the nickname `ListPosts`. -/
def listPostsOperation : Operation :=
  { nickname := "ListPosts", method := "GET", summary := "", notes := listNotes,
    parameters := [⟨"limit", .query⟩, ⟨"offset", .query⟩] }

/-- A discovery document with the groups `/users` and `/posts`, one operation each. -/
def twoGroups : List (GroupRef × List OperationGroup) :=
  [(⟨"/users", "Users"⟩, [⟨"/users/{id}", "A user", [getUserOperation]⟩]),
   (⟨"/posts", "Posts"⟩, [⟨"/posts", "All posts", [listPostsOperation]⟩])]

/-- A discovery document whose only group lists two operations that get the same name. -/
def clashingGroup : List (GroupRef × List OperationGroup) :=
  [(⟨"/users", "Users"⟩,
    [⟨"/users/{id}", "A user", [getUserOperation, deleteUserOperation]⟩])]

/-- Caller-supplied headers that redefine `Accept` and add `Authorization`. -/
def callerHeaders : List (String × String) :=
  [("Authorization", "Bearer token"), ("Accept", "text/plain")]

/-- A response with status 200 and a JSON content type whose body is empty, so that
`res.json()` rejects. -/
def emptyJsonResponse : Response :=
  { status := 200, statusText := "OK", contentType := some "application/json",
    json := .error "SyntaxError: Unexpected end of JSON input" }

/-- A response with status 404. -/
def notFoundResponse : Response :=
  { status := 404, statusText := "Not Found", contentType := some "text/html",
    json := .error "SyntaxError: Unexpected token < in JSON at position 0" }

/-- An operation with a declared `query` parameter whose notes carry no query template. -/
def usersOperation : Operation :=
  { nickname := "ListUsers", method := "GET", summary := "", notes := "List all users",
    parameters := [⟨"limit", .query⟩] }

/-! ## The `counts` object and the final `reduce` of `determineArgTypes` -/

theorem countOf_nil (u : ParamType) : countOf [] u = 0 := rfl

theorem countOf_cons (k : ParamType) (c : Nat) (rest : List (ParamType × Nat)) (u : ParamType) :
    countOf ((k, c) :: rest) u = if k = u then c else countOf rest u := by
  unfold countOf
  rw [List.find?_cons]
  by_cases h : k = u
  · simp [h]
  · have hb : (k == u) = false := by simpa using h
    simp [h, hb]

theorem keys_bumpCount (t : ParamType) (inc : Nat) (counts : List (ParamType × Nat)) :
    (bumpCount t inc counts).map Prod.fst
      = if t ∈ counts.map Prod.fst then counts.map Prod.fst else counts.map Prod.fst ++ [t] := by
  induction counts with
  | nil => simp [bumpCount]
  | cons kc rest ih =>
    obtain ⟨k, c⟩ := kc
    by_cases hk : k = t
    · simp [bumpCount, hk]
    · have hk2 : ¬ t = k := fun h => hk h.symm
      simp only [bumpCount, if_neg hk, List.map_cons, ih, List.mem_cons, hk2, false_or]
      split <;> simp

theorem countOf_bumpCount (t : ParamType) (inc : Nat) (counts : List (ParamType × Nat))
    (u : ParamType) :
    countOf (bumpCount t inc counts) u = countOf counts u + (if u = t then inc else 0) := by
  induction counts with
  | nil =>
    by_cases hu : u = t
    · subst hu
      simp [bumpCount, countOf_cons, countOf_nil]
    · have hu2 : ¬ t = u := fun h => hu h.symm
      simp [bumpCount, countOf_cons, countOf_nil, hu, hu2]
  | cons kc rest ih =>
    obtain ⟨k, c⟩ := kc
    by_cases hk : k = t
    · subst hk
      by_cases hu : u = k
      · subst hu
        simp [bumpCount, countOf_cons]
      · have hu2 : ¬ k = u := fun h => hu h.symm
        simp [bumpCount, countOf_cons, hu, hu2]
    · by_cases hu : k = u
      · subst hu
        simp [bumpCount, countOf_cons, hk]
      · simp [bumpCount, countOf_cons, hk, hu, ih]

theorem tally_append (objKeys : List String) (ps : List Parameter) (p : Parameter) :
    tally objKeys (ps ++ [p])
      = bumpCount p.paramType (if p.name ∈ objKeys then 1 else 0) (tally objKeys ps) := by
  simp [tally, List.foldl_append]

theorem mem_keys_tally (objKeys : List String) (ps : List Parameter) (t : ParamType) :
    t ∈ (tally objKeys ps).map Prod.fst ↔ t ∈ declaredTypes ps := by
  induction ps using List.reverseRecOn with
  | nil => simp [tally, declaredTypes]
  | append_singleton ps p ih =>
    rw [tally_append, keys_bumpCount]
    unfold declaredTypes at ih ⊢
    split
    · rename_i hmem
      rw [List.map_append, List.mem_append, ih]
      constructor
      · exact Or.inl
      · rintro (h | h)
        · exact h
        · simp only [List.map_cons, List.map_nil, List.mem_singleton] at h
          subst h
          exact ih.mp hmem
    · rw [List.map_append, List.mem_append, List.mem_append, ih]
      simp

theorem countOf_tally (objKeys : List String) (ps : List Parameter) (t : ParamType) :
    countOf (tally objKeys ps) t = bucketCount objKeys ps t := by
  induction ps using List.reverseRecOn with
  | nil => simp [tally, bucketCount, countOf_nil]
  | append_singleton ps p ih =>
    rw [tally_append, countOf_bumpCount, ih]
    unfold bucketCount
    rw [List.filter_append, List.length_append]
    congr 1
    by_cases ht : t = p.paramType
    · subst ht
      by_cases hn : p.name ∈ objKeys
      · simp [List.filter, hn]
      · simp [List.filter, hn]
    · have ht2 : ¬ p.paramType = t := fun h => ht h.symm
      simp [List.filter, ht, ht2]

theorem pairwise_keys_tally (objKeys : List String) (ps : List Parameter) :
    List.Pairwise
      (fun a b => List.indexOf a (declaredTypes ps) < List.indexOf b (declaredTypes ps))
      ((tally objKeys ps).map Prod.fst) := by
  induction ps using List.reverseRecOn with
  | nil => simp [tally]
  | append_singleton ps p ih =>
    have hsub : ∀ a, a ∈ (tally objKeys ps).map Prod.fst →
        List.indexOf a (declaredTypes (ps ++ [p])) = List.indexOf a (declaredTypes ps) := by
      intro a ha
      unfold declaredTypes
      rw [List.map_append]
      exact List.indexOf_append_of_mem ((mem_keys_tally objKeys ps a).mp ha)
    have hold : List.Pairwise
        (fun a b => List.indexOf a (declaredTypes (ps ++ [p]))
          < List.indexOf b (declaredTypes (ps ++ [p])))
        ((tally objKeys ps).map Prod.fst) := by
      refine List.Pairwise.imp_of_mem ?_ ih
      intro a b ha hb hab
      rw [hsub a ha, hsub b hb]
      exact hab
    rw [tally_append, keys_bumpCount]
    split
    · exact hold
    · rename_i hnew
      rw [List.pairwise_append]
      refine ⟨hold, List.pairwise_singleton _ _, ?_⟩
      intro a ha b hb
      rw [List.mem_singleton] at hb
      rw [hb, hsub a ha]
      have hnot : p.paramType ∉ declaredTypes ps :=
        fun h => hnew ((mem_keys_tally objKeys ps p.paramType).mpr h)
      have hlast : List.indexOf p.paramType (declaredTypes (ps ++ [p]))
          = (declaredTypes ps).length := by
        unfold declaredTypes at hnot ⊢
        rw [List.map_append, List.indexOf_append_of_not_mem hnot]
        simp
      rw [hlast]
      exact List.indexOf_lt_length.mpr ((mem_keys_tally objKeys ps a).mp ha)

theorem foldl_pickMax (counts : List (ParamType × Nat)) (l : List ParamType) (m : ParamType) :
    (l.foldl (pickMax counts) m = m ∧ ∀ t ∈ l, countOf counts t < countOf counts m)
      ∨ ∃ pre post, l = pre ++ l.foldl (pickMax counts) m :: post
          ∧ countOf counts m ≤ countOf counts (l.foldl (pickMax counts) m)
          ∧ (∀ t ∈ pre, countOf counts t ≤ countOf counts (l.foldl (pickMax counts) m))
          ∧ ∀ t ∈ post, countOf counts t < countOf counts (l.foldl (pickMax counts) m) := by
  induction l generalizing m with
  | nil => exact Or.inl ⟨rfl, by simp⟩
  | cons x l ih =>
    rw [List.foldl_cons]
    by_cases hle : countOf counts m ≤ countOf counts x
    · have hpick : pickMax counts m x = x := by
        unfold pickMax
        rw [if_pos (max_eq_right hle)]
      rw [hpick]
      rcases ih x with ⟨hr, hlt⟩ | ⟨pre, post, hl, hm, hpre, hpost⟩
      · refine Or.inr ⟨[], l, ?_, ?_, ?_, ?_⟩
        · rw [hr]; rfl
        · rw [hr]; exact hle
        · simp
        · rw [hr]; exact hlt
      · refine Or.inr ⟨x :: pre, post, ?_, le_trans hle hm, ?_, hpost⟩
        · rw [List.cons_append, ← hl]
        · intro t ht
          rcases List.mem_cons.mp ht with h | h
          · rw [h]; exact hm
          · exact hpre t h
    · have hlt : countOf counts x < countOf counts m := Nat.lt_of_not_le hle
      have hpick : pickMax counts m x = m := by
        unfold pickMax
        rw [if_neg]
        intro h
        have := le_max_left (countOf counts m) (countOf counts x)
        rw [h] at this
        exact hle this
      rw [hpick]
      rcases ih m with ⟨hr, hall⟩ | ⟨pre, post, hl, hm, hpre, hpost⟩
      · refine Or.inl ⟨hr, ?_⟩
        intro t ht
        rcases List.mem_cons.mp ht with h | h
        · rw [h]; exact hlt
        · exact hall t h
      · refine Or.inr ⟨x :: pre, post, ?_, hm, ?_, hpost⟩
        · rw [List.cons_append, ← hl]
        · intro t ht
          rcases List.mem_cons.mp ht with h | h
          · rw [h]; exact le_trans (Nat.le_of_lt hlt) hm
          · exact hpre t h

theorem determineArgTypes_obj (props : List (String × Value)) (params : List Parameter)
    (hne : params ≠ []) :
    ∃ r pre post, determineArgTypes (.obj props) params = .ok (some r)
      ∧ (tally (props.map Prod.fst) params).map Prod.fst = pre ++ r :: post
      ∧ (∀ t ∈ pre, bucketCount (props.map Prod.fst) params t
          ≤ bucketCount (props.map Prod.fst) params r)
      ∧ ∀ t ∈ post, bucketCount (props.map Prod.fst) params t
          < bucketCount (props.map Prod.fst) params r := by
  have hrun : determineArgTypes (.obj props) params
      = match (tally (props.map Prod.fst) params).map Prod.fst with
        | [] => .ok none
        | k0 :: ks => .ok (some ((k0 :: ks).foldl
            (pickMax (tally (props.map Prod.fst) params)) k0)) := rfl
  rw [hrun]
  cases hkeys : (tally (props.map Prod.fst) params).map Prod.fst with
  | nil =>
    exfalso
    cases params with
    | nil => exact hne rfl
    | cons p ps =>
      have hmem : p.paramType ∈ (tally (props.map Prod.fst) (p :: ps)).map Prod.fst :=
        (mem_keys_tally _ _ _).mpr (by simp [declaredTypes])
      rw [hkeys] at hmem
      cases hmem
  | cons k0 ks =>
    rcases foldl_pickMax (tally (props.map Prod.fst) params) (k0 :: ks) k0 with
      ⟨_, hlt⟩ | ⟨pre, post, hl, _, hpre, hpost⟩
    · exact absurd (hlt k0 (List.mem_cons_self _ _)) (Nat.lt_irrefl _)
    · refine ⟨_, pre, post, rfl, hl, ?_, ?_⟩
      · intro t ht
        have := hpre t ht
        rwa [countOf_tally, countOf_tally] at this
      · intro t ht
        have := hpost t ht
        rwa [countOf_tally, countOf_tally] at this

theorem determineArgTypes_last_max (props : List (String × Value)) (params : List Parameter)
    (hne : params ≠ []) :
    ∃ r, determineArgTypes (.obj props) params = .ok (some r)
      ∧ r ∈ declaredTypes params
      ∧ (∀ t ∈ declaredTypes params, bucketCount (props.map Prod.fst) params t
          ≤ bucketCount (props.map Prod.fst) params r)
      ∧ ∀ t ∈ declaredTypes params, t ≠ r →
          bucketCount (props.map Prod.fst) params t = bucketCount (props.map Prod.fst) params r →
          List.indexOf t (declaredTypes params) < List.indexOf r (declaredTypes params) := by
  obtain ⟨r, pre, post, hrun, hkeys, hpre, hpost⟩ := determineArgTypes_obj props params hne
  have hmem : ∀ t, t ∈ declaredTypes params ↔ t ∈ pre ++ r :: post := by
    intro t
    rw [← hkeys]
    exact (mem_keys_tally _ _ _).symm
  refine ⟨r, hrun, (hmem r).mpr (by simp), ?_, ?_⟩
  · intro t ht
    rcases List.mem_append.mp ((hmem t).mp ht) with h | h
    · exact hpre t h
    · rcases List.mem_cons.mp h with h | h
      · rw [h]
      · exact Nat.le_of_lt (hpost t h)
  · intro t ht hne hcount
    have hpw := pairwise_keys_tally (props.map Prod.fst) params
    rw [hkeys, List.pairwise_append] at hpw
    rcases List.mem_append.mp ((hmem t).mp ht) with h | h
    · exact hpw.2.2 t h r (List.mem_cons_self _ _)
    · rcases List.mem_cons.mp h with h | h
      · exact absurd h hne
      · exact absurd hcount (Nat.ne_of_lt (hpost t h))

/-! ## The loop of `formatArgs` -/

theorem determineArgTypes_total (props : List (String × Value)) (params : List Parameter) :
    ∃ t, determineArgTypes (.obj props) params = .ok t := by
  have hrun : determineArgTypes (.obj props) params
      = match (tally (props.map Prod.fst) params).map Prod.fst with
        | [] => .ok none
        | k0 :: ks => .ok (some ((k0 :: ks).foldl
            (pickMax (tally (props.map Prod.fst) params)) k0)) := rfl
  rw [hrun]
  cases (tally (props.map Prod.fst) params).map Prod.fst with
  | nil => exact ⟨_, rfl⟩
  | cons k0 ks => exact ⟨_, rfl⟩

theorem formatArgsStep_null (params : List Parameter) (rv : ReturnValues) :
    formatArgsStep params rv .null = .error typeErrorNullish := rfl

theorem formatArgsStep_scalar (params : List Parameter) (rv : ReturnValues) (a : Value)
    (h : a.typeofObject = false) : formatArgsStep params rv a = .ok (pushPath rv a) := by
  unfold formatArgsStep
  rw [h]
  rfl

theorem formatArgsStep_obj (params : List Parameter) (rv : ReturnValues)
    (props : List (String × Value)) (t : Option ParamType)
    (h : determineArgTypes (.obj props) params = .ok t) :
    formatArgsStep params rv (.obj props) = .ok
      (match t with
        | some .path => pushPath rv (.obj props)
        | some .query =>
          match rv.query with
          | none => { rv with query := some (.obj props) }
          | some _ => pushPath rv (.obj props)
        | some .body =>
          match rv.body with
          | none => { rv with body := some (.obj props) }
          | some _ => pushPath rv (.obj props)
        | other =>
          match rv.others.lookup (otherKey other) with
          | none => { rv with others := rv.others ++ [(otherKey other, .obj props)] }
          | some _ => pushPath rv (.obj props)) := by
  obtain ⟨p, q, b, u⟩ := rv
  unfold formatArgsStep
  simp only [Value.typeofObject, if_true, h]
  rcases t with _ | t
  · simp only [bind, Except.bind]
    cases List.lookup (otherKey none) u <;> rfl
  · cases t with
    | path => rfl
    | query => cases q <;> rfl
    | body => cases b <;> rfl
    | other name =>
      simp only [bind, Except.bind]
      cases List.lookup (otherKey (some (.other name))) u <;> rfl

theorem formatArgsLoop_cons (params : List Parameter) (a : Value) (l : List Value)
    (rv : ReturnValues) :
    formatArgsLoop params (a :: l) rv
      = (formatArgsStep params rv a).bind (fun next => formatArgsLoop params l next) := rfl

theorem formatArgsLoop_append (params : List Parameter) (l1 l2 : List Value)
    (rv : ReturnValues) :
    formatArgsLoop params (l1 ++ l2) rv
      = (formatArgsLoop params l1 rv).bind (fun next => formatArgsLoop params l2 next) := by
  induction l1 generalizing rv with
  | nil => rfl
  | cons a l1 ih =>
    rw [List.cons_append, formatArgsLoop_cons, formatArgsLoop_cons]
    cases formatArgsStep params rv a with
    | error e => rfl
    | ok next => exact ih next

theorem formatArgsLoop_scalars (params : List Parameter) (l : List Value) (rv : ReturnValues)
    (h : ∀ a ∈ l, a.typeofObject = false) :
    formatArgsLoop params l rv = .ok { rv with path := rv.path ++ l } := by
  induction l generalizing rv with
  | nil => simp [formatArgsLoop]; rfl
  | cons a l ih =>
    rw [formatArgsLoop_cons, formatArgsStep_scalar params rv a (h a (List.mem_cons_self _ _))]
    show formatArgsLoop params l (pushPath rv a) = _
    rw [ih (pushPath rv a) (fun b hb => h b (List.mem_cons_of_mem _ hb))]
    simp [pushPath]

theorem formatArgsStep_ok (params : List Parameter) (rv : ReturnValues) (a : Value)
    (h : a ≠ .null) : ∃ next, formatArgsStep params rv a = .ok next := by
  cases a with
  | null => exact absurd rfl h
  | obj props =>
    obtain ⟨t, ht⟩ := determineArgTypes_total props params
    exact ⟨_, formatArgsStep_obj params rv props t ht⟩
  | undefined => exact ⟨_, formatArgsStep_scalar params rv _ rfl⟩
  | bool b => exact ⟨_, formatArgsStep_scalar params rv _ rfl⟩
  | num n => exact ⟨_, formatArgsStep_scalar params rv _ rfl⟩
  | str s => exact ⟨_, formatArgsStep_scalar params rv _ rfl⟩

theorem formatArgsLoop_ok (params : List Parameter) (l : List Value) (rv : ReturnValues)
    (h : ∀ a ∈ l, a ≠ .null) : ∃ final, formatArgsLoop params l rv = .ok final := by
  induction l generalizing rv with
  | nil => exact ⟨rv, rfl⟩
  | cons a l ih =>
    obtain ⟨next, hnext⟩ := formatArgsStep_ok params rv a (h a (List.mem_cons_self _ _))
    rw [formatArgsLoop_cons, hnext]
    exact ih next (fun b hb => h b (List.mem_cons_of_mem _ hb))

theorem formatArgsLoop_null (params : List Parameter) (l : List Value) (rv : ReturnValues)
    (h : Value.null ∈ l) : formatArgsLoop params l rv = .error typeErrorNullish := by
  induction l generalizing rv with
  | nil => cases h
  | cons a l ih =>
    rw [formatArgsLoop_cons]
    by_cases ha : a = .null
    · rw [ha, formatArgsStep_null]
      rfl
    · obtain ⟨next, hnext⟩ := formatArgsStep_ok params rv a ha
      rw [hnext]
      rcases List.mem_cons.mp h with h | h
      · exact absurd h.symm ha
      · exact ih next h

theorem formatArgsStep_cases (params : List Parameter) (rv next : ReturnValues) (a : Value)
    (h : formatArgsStep params rv a = .ok next) :
    next = pushPath rv a
      ∨ (∃ props, a = .obj props ∧ determineArgTypes a params = .ok (some .query)
          ∧ rv.query = none ∧ next = { rv with query := some a })
      ∨ (∃ props, a = .obj props ∧ determineArgTypes a params = .ok (some .body)
          ∧ rv.body = none ∧ next = { rv with body := some a })
      ∨ (∃ props t, a = .obj props ∧ determineArgTypes a params = .ok t
          ∧ (t = none ∨ ∃ name, t = some (.other name))
          ∧ rv.others.lookup (otherKey t) = none
          ∧ next = { rv with others := rv.others ++ [(otherKey t, a)] }) := by
  obtain ⟨p, q, b, u⟩ := rv
  cases a with
  | null => rw [formatArgsStep_null] at h; cases h
  | obj props =>
    obtain ⟨t, ht⟩ := determineArgTypes_total props params
    rw [formatArgsStep_obj params _ props t ht] at h
    injection h with h
    subst h
    rcases t with _ | t
    · cases hu : List.lookup (otherKey none) u with
      | none =>
        refine Or.inr (Or.inr (Or.inr ⟨props, none, rfl, ht, Or.inl rfl, hu, ?_⟩))
        simp only [hu]
      | some x =>
        refine Or.inl ?_
        simp only [hu]
    · cases t with
      | path => exact Or.inl rfl
      | query =>
        cases q with
        | none => exact Or.inr (Or.inl ⟨props, rfl, ht, rfl, rfl⟩)
        | some x => exact Or.inl rfl
      | body =>
        cases b with
        | none => exact Or.inr (Or.inr (Or.inl ⟨props, rfl, ht, rfl, rfl⟩))
        | some x => exact Or.inl rfl
      | other name =>
        cases hu : List.lookup (otherKey (some (.other name))) u with
        | none =>
          refine Or.inr (Or.inr (Or.inr
            ⟨props, some (.other name), rfl, ht, Or.inr ⟨name, rfl⟩, hu, ?_⟩))
          simp only [hu]
        | some x =>
          refine Or.inl ?_
          simp only [hu]
  | undefined =>
    rw [formatArgsStep_scalar params _ .undefined rfl] at h
    injection h with h
    exact Or.inl h.symm
  | bool v =>
    rw [formatArgsStep_scalar params _ (.bool v) rfl] at h
    injection h with h
    exact Or.inl h.symm
  | num n =>
    rw [formatArgsStep_scalar params _ (.num n) rfl] at h
    injection h with h
    exact Or.inl h.symm
  | str s =>
    rw [formatArgsStep_scalar params _ (.str s) rfl] at h
    injection h with h
    exact Or.inl h.symm

theorem formatArgsStep_scalars_kept (params : List Parameter) (rv next : ReturnValues)
    (a : Value) (h : formatArgsStep params rv a = .ok next) :
    next.path.filter isScalar = rv.path.filter isScalar ++ [a].filter isScalar
      ∧ ((∀ q, rv.query = some q → ∃ props, q = .obj props) →
          ∀ q, next.query = some q → ∃ props, q = .obj props)
      ∧ ((∀ b, rv.body = some b → ∃ props, b = .obj props) →
          ∀ b, next.body = some b → ∃ props, b = .obj props) := by
  rcases formatArgsStep_cases params rv next a h with
    h | ⟨props, ha, _, _, h⟩ | ⟨props, ha, _, _, h⟩ | ⟨props, _, ha, _, _, _, h⟩
  · subst h
    simp [pushPath]
  · subst h ha
    refine ⟨by simp [isScalar, Value.typeofObject], ?_, fun hb => hb⟩
    intro _ q hq
    simp only [Option.some.injEq] at hq
    exact ⟨props, hq.symm⟩
  · subst h ha
    refine ⟨by simp [isScalar, Value.typeofObject], fun hq => hq, ?_⟩
    intro _ b hb
    simp only [Option.some.injEq] at hb
    exact ⟨props, hb.symm⟩
  · subst h ha
    exact ⟨by simp [isScalar, Value.typeofObject], fun hq => hq, fun hb => hb⟩

theorem formatArgsLoop_scalars_kept (params : List Parameter) (l : List Value)
    (rv final : ReturnValues) (h : formatArgsLoop params l rv = .ok final) :
    final.path.filter isScalar = rv.path.filter isScalar ++ l.filter isScalar
      ∧ ((∀ q, rv.query = some q → ∃ props, q = .obj props) →
          ∀ q, final.query = some q → ∃ props, q = .obj props)
      ∧ ((∀ b, rv.body = some b → ∃ props, b = .obj props) →
          ∀ b, final.body = some b → ∃ props, b = .obj props) := by
  induction l generalizing rv with
  | nil =>
    injection h with h
    subst h
    exact ⟨by simp, fun hq => hq, fun hb => hb⟩
  | cons a l ih =>
    rw [formatArgsLoop_cons] at h
    cases hstep : formatArgsStep params rv a with
    | error e => rw [hstep] at h; cases h
    | ok next =>
      rw [hstep] at h
      obtain ⟨hp, hq, hb⟩ := formatArgsStep_scalars_kept params rv next a hstep
      obtain ⟨hp2, hq2, hb2⟩ := ih next h
      refine ⟨?_, fun h0 => hq2 (hq h0), fun h0 => hb2 (hb h0)⟩
      rw [hp2, hp, List.append_assoc, ← List.filter_append]
      rfl

theorem inferredAs_iff (params : List Parameter) (t : ParamType) (a : Value) :
    inferredAs params t a = true
      ↔ ∃ props, a = .obj props ∧ determineArgTypes a params = .ok (some t) := by
  cases a with
  | obj props =>
    obtain ⟨r, hr⟩ := determineArgTypes_total props params
    rcases r with _ | r
    · simp [inferredAs, hr]
    · simp [inferredAs, hr]
  | null => simp [inferredAs]
  | undefined => simp [inferredAs]
  | bool b => simp [inferredAs]
  | num n => simp [inferredAs]
  | str s => simp [inferredAs]

theorem formatArgsStep_inferred_empty (params : List Parameter) (rv : ReturnValues) (a : Value)
    (B : ParamType) (hB : B = .query ∨ B = .body) (ha : inferredAs params B a = true)
    (hslot : rv.slot B = none) :
    formatArgsStep params rv a = .ok (rv.setSlot B a) := by
  obtain ⟨props, rfl, hdet⟩ := (inferredAs_iff params B a).mp ha
  rw [formatArgsStep_obj params rv props _ hdet]
  obtain ⟨p, q, b, u⟩ := rv
  rcases hB with rfl | rfl
  · simp only [ReturnValues.slot] at hslot
    subst hslot
    rfl
  · simp only [ReturnValues.slot] at hslot
    subst hslot
    rfl

theorem formatArgsStep_inferred_full (params : List Parameter) (rv : ReturnValues) (a x : Value)
    (B : ParamType) (ha : inferredAs params B a = true) (hslot : rv.slot B = some x) :
    formatArgsStep params rv a = .ok (pushPath rv a) := by
  obtain ⟨props, rfl, hdet⟩ := (inferredAs_iff params B a).mp ha
  rw [formatArgsStep_obj params rv props _ hdet]
  obtain ⟨p, q, b, u⟩ := rv
  cases B with
  | path => cases hslot
  | other name => cases hslot
  | query =>
    simp only [ReturnValues.slot] at hslot
    subst hslot
    rfl
  | body =>
    simp only [ReturnValues.slot] at hslot
    subst hslot
    rfl

theorem formatArgsStep_other (params : List Parameter) (rv next : ReturnValues) (a : Value)
    (B : ParamType) (ha : inferredAs params B a = false)
    (h : formatArgsStep params rv a = .ok next) :
    next.slot B = rv.slot B
      ∧ next.path.filter (inferredAs params B) = rv.path.filter (inferredAs params B) := by
  rcases formatArgsStep_cases params rv next a h with
    h | ⟨props, hobj, hdet, _, h⟩ | ⟨props, hobj, hdet, _, h⟩ | ⟨props, _, hobj, hdet, _, _, h⟩
  · subst h
    refine ⟨by cases B <;> rfl, ?_⟩
    simp [pushPath, List.filter_append, List.filter, ha]
  · subst h
    cases B with
    | path => exact ⟨rfl, rfl⟩
    | other name => exact ⟨rfl, rfl⟩
    | query =>
      have := (inferredAs_iff params .query a).mpr ⟨props, hobj, hdet⟩
      rw [ha] at this
      cases this
    | body => exact ⟨rfl, rfl⟩
  · subst h
    cases B with
    | path => exact ⟨rfl, rfl⟩
    | other name => exact ⟨rfl, rfl⟩
    | query => exact ⟨rfl, rfl⟩
    | body =>
      have := (inferredAs_iff params .body a).mpr ⟨props, hobj, hdet⟩
      rw [ha] at this
      cases this
  · subst h
    exact ⟨by cases B <;> rfl, rfl⟩

theorem formatArgsLoop_slot_full (params : List Parameter) (l : List Value)
    (rv final : ReturnValues) (x : Value) (B : ParamType) (hslot : rv.slot B = some x)
    (h : formatArgsLoop params l rv = .ok final) :
    final.slot B = some x
      ∧ final.path.filter (inferredAs params B)
        = rv.path.filter (inferredAs params B) ++ l.filter (inferredAs params B) := by
  induction l generalizing rv with
  | nil =>
    injection h with h
    subst h
    exact ⟨hslot, by simp⟩
  | cons a l ih =>
    rw [formatArgsLoop_cons] at h
    cases ha : inferredAs params B a with
    | true =>
      rw [formatArgsStep_inferred_full params rv a x B ha hslot] at h
      have hslot2 : (pushPath rv a).slot B = some x := by
        rw [← hslot]; cases B <;> rfl
      obtain ⟨h1, h2⟩ := ih (pushPath rv a) hslot2 h
      refine ⟨h1, ?_⟩
      rw [h2]
      simp [pushPath, List.filter_append, List.filter, ha]
    | false =>
      cases hstep : formatArgsStep params rv a with
      | error e => rw [hstep] at h; cases h
      | ok next =>
        rw [hstep] at h
        obtain ⟨hs, hp⟩ := formatArgsStep_other params rv next a B ha hstep
        obtain ⟨h1, h2⟩ := ih next (hs.trans hslot) h
        refine ⟨h1, ?_⟩
        rw [h2, hp]
        simp [List.filter, ha]

theorem formatArgsLoop_slot_none (params : List Parameter) (l : List Value)
    (rv final : ReturnValues) (B : ParamType) (hslot : rv.slot B = none)
    (hl : ∀ a ∈ l, inferredAs params B a = false)
    (h : formatArgsLoop params l rv = .ok final) :
    final.slot B = none
      ∧ final.path.filter (inferredAs params B) = rv.path.filter (inferredAs params B) := by
  induction l generalizing rv with
  | nil =>
    injection h with h
    subst h
    exact ⟨hslot, rfl⟩
  | cons a l ih =>
    rw [formatArgsLoop_cons] at h
    cases hstep : formatArgsStep params rv a with
    | error e => rw [hstep] at h; cases h
    | ok next =>
      rw [hstep] at h
      obtain ⟨hs, hp⟩ :=
        formatArgsStep_other params rv next a B (hl a (List.mem_cons_self _ _)) hstep
      obtain ⟨h1, h2⟩ := ih next (hs.trans hslot)
        (fun b hb => hl b (List.mem_cons_of_mem _ hb)) h
      exact ⟨h1, h2.trans hp⟩

theorem formatArgs_eq_loop (args : List Value) (method : String) (params : List Parameter) :
    formatArgs args method params
      = (formatArgsLoop params args.reverse
          { path := [], query := none, body := none, others := [] }).bind
        (fun rv => .ok (rv.path, rv.query, rv.body)) := rfl

theorem bucketCount_pos (objKeys : List String) (params : List Parameter) (t : ParamType)
    (p : Parameter) (hp : p ∈ params) (ht : p.paramType = t) (hk : p.name ∈ objKeys) :
    0 < bucketCount objKeys params t := by
  unfold bucketCount
  exact List.length_pos_of_mem (List.mem_filter.mpr ⟨hp, by simp [ht, hk]⟩)

theorem bucketCount_eq_zero (objKeys : List String) (params : List Parameter) (t : ParamType)
    (h : ∀ p ∈ params, p.name ∈ objKeys → p.paramType ≠ t) :
    bucketCount objKeys params t = 0 := by
  unfold bucketCount
  rw [List.length_eq_zero, List.filter_eq_nil_iff]
  intro p hp
  simp only [decide_eq_true_eq, not_and]
  intro ht hk
  exact h p hp hk ht

theorem componentOf_eq_slot (rv : ReturnValues) (B : ParamType) :
    componentOf (rv.path, rv.query, rv.body) B = rv.slot B := by
  cases B <;> rfl

/-! ## Assignments to the client tree -/

theorem keys_assign {α : Type} (k : String) (v : α) (o : List (String × α)) :
    (assign k v o).map Prod.fst
      = if k ∈ o.map Prod.fst then o.map Prod.fst else o.map Prod.fst ++ [k] := by
  induction o with
  | nil => simp [assign]
  | cons e rest ih =>
    obtain ⟨k', v'⟩ := e
    by_cases hk : k' = k
    · simp [assign, hk]
    · have hk2 : ¬ k = k' := fun h => hk h.symm
      simp only [assign, if_neg hk, List.map_cons, ih, List.mem_cons, hk2, false_or]
      split <;> simp

theorem assign_fresh {α : Type} (k : String) (v : α) (o : List (String × α))
    (h : k ∉ o.map Prod.fst) : assign k v o = o ++ [(k, v)] := by
  induction o with
  | nil => rfl
  | cons e rest ih =>
    obtain ⟨k', v'⟩ := e
    have hk : ¬ k' = k := fun hk => h (by simp [hk])
    have hrest : k ∉ rest.map Prod.fst := fun hr => h (by simp [hr])
    simp [assign, hk, ih hrest]

theorem foldl_assign_fresh {α : Type} (pairs o : List (String × α))
    (h : (o.map Prod.fst ++ pairs.map Prod.fst).Nodup) :
    pairs.foldl (fun acc kv => assign kv.1 kv.2 acc) o = o ++ pairs := by
  induction pairs generalizing o with
  | nil => simp
  | cons kv ps ih =>
    have hfresh : kv.1 ∉ o.map Prod.fst := by
      intro hmem
      rw [List.nodup_append] at h
      exact h.2.2 hmem (by simp)
    rw [List.foldl_cons, assign_fresh kv.1 kv.2 o hfresh, ih]
    · simp
    · simpa [List.append_assoc] using h

theorem nodup_keys_assign {α : Type} (k : String) (v : α) (o : List (String × α))
    (h : (o.map Prod.fst).Nodup) : ((assign k v o).map Prod.fst).Nodup := by
  rw [keys_assign]
  split
  · exact h
  · rename_i hk
    rw [List.nodup_append]
    exact ⟨h, List.nodup_singleton _, by simpa using hk⟩

theorem assign_perm {α : Type} (k : String) (v : α) (o : List (String × α))
    (h : (o.map Prod.fst).Nodup) :
    (assign k v o).Perm (o.filter (fun e => decide (e.1 ≠ k)) ++ [(k, v)]) := by
  induction o with
  | nil => simp [assign]
  | cons e rest ih =>
    obtain ⟨k', v'⟩ := e
    rw [List.map_cons, List.nodup_cons] at h
    by_cases hk : k' = k
    · subst hk
      have hrest : rest.filter (fun e => decide (e.1 ≠ k')) = rest := by
        rw [List.filter_eq_self]
        intro e he
        have : e.1 ≠ k' := fun heq => h.1 (List.mem_map.mpr ⟨e, he, heq⟩)
        simpa using this
      simp only [assign, if_true, List.filter, ne_eq, not_true_eq_false, decide_False]
      rw [hrest]
      exact (@List.perm_append_comm _ rest [(k', v)]).symm
    · simp only [assign, if_neg hk, List.filter, ne_eq, hk, not_false_eq_true, decide_True,
        List.cons_append]
      exact List.Perm.cons _ (ih h.2)

theorem foldl_assign_perm {α : Type} (pairs o : List (String × α))
    (hp : (pairs.map Prod.fst).Nodup) (ho : (o.map Prod.fst).Nodup) :
    (pairs.foldl (fun acc kv => assign kv.1 kv.2 acc) o).Perm
      (o.filter (fun e => decide (e.1 ∉ pairs.map Prod.fst)) ++ pairs) := by
  induction pairs generalizing o with
  | nil => simp
  | cons kv ps ih =>
    rw [List.map_cons, List.nodup_cons] at hp
    rw [List.foldl_cons]
    refine (ih (assign kv.1 kv.2 o) hp.2 (nodup_keys_assign kv.1 kv.2 o ho)).trans ?_
    have h1 := (assign_perm kv.1 kv.2 o ho).filter (fun e => decide (e.1 ∉ ps.map Prod.fst))
    refine (List.Perm.append_right ps h1).trans ?_
    rw [List.filter_append, List.filter_filter]
    have hkeep : [(kv.1, kv.2)].filter (fun e => decide (e.1 ∉ ps.map Prod.fst))
        = [(kv.1, kv.2)] := by
      simp [List.filter, hp.1]
    rw [hkeep, List.append_assoc]
    have hfilter : o.filter (fun a => decide (a.1 ∉ ps.map Prod.fst) && decide (a.1 ≠ kv.1))
        = o.filter (fun e => decide (e.1 ∉ (kv :: ps).map Prod.fst)) := by
      apply List.filter_congr
      intro e _
      by_cases h1 : e.1 = kv.1 <;> by_cases h2 : e.1 ∈ ps.map Prod.fst <;> simp [h1, h2]
    rw [hfilter]
    exact List.Perm.refl _

theorem apiNameOf_ok (camelize toLowerCase : String → String) (nickname : String)
    (h : nickname ≠ "") :
    apiNameOf camelize toLowerCase nickname = .ok (camelize (lowerFirst toLowerCase nickname)) := by
  unfold apiNameOf
  rw [if_neg]
  intro hnil
  apply h
  cases nickname with
  | mk data =>
    simp only [String.toList] at hnil
    subst hnil
    rfl

theorem fillOperations_ok (camelize toLowerCase : String → String) (path : String)
    (ops : List Operation) (child : List (String × GeneratedMethod))
    (h : ∀ op ∈ ops, op.nickname ≠ "") :
    ops.foldlM
        (fun childApi operation => do
          let apiName ← apiNameOf camelize toLowerCase operation.nickname
          pure (assign apiName ({ path := path, operation := operation } : GeneratedMethod)
            childApi))
        child
      = Except.ok ((ops.map (fun operation =>
          (camelize (lowerFirst toLowerCase operation.nickname),
            ({ path := path, operation := operation } : GeneratedMethod)))).foldl
          (fun acc kv => assign kv.1 kv.2 acc) child) := by
  induction ops generalizing child with
  | nil => rfl
  | cons op ops ih =>
    rw [List.foldlM_cons, apiNameOf_ok camelize toLowerCase op.nickname
      (h op (List.mem_cons_self _ _))]
    exact ih _ (fun o ho => h o (List.mem_cons_of_mem _ ho))

theorem fillChild_fold_ok (camelize toLowerCase : String → String)
    (doc : List OperationGroup) (child : List (String × GeneratedMethod))
    (h : ∀ d ∈ doc, ∀ op ∈ d.operations, op.nickname ≠ "") :
    doc.foldlM
        (fun childApi apiDetails =>
          apiDetails.operations.foldlM
            (fun childApi operation => do
              let apiName ← apiNameOf camelize toLowerCase operation.nickname
              pure (assign apiName
                ({ path := apiDetails.path, operation := operation } : GeneratedMethod)
                childApi))
            childApi)
        child
      = Except.ok ((expectedMethods camelize toLowerCase doc).foldl
          (fun acc kv => assign kv.1 kv.2 acc) child) := by
  induction doc generalizing child with
  | nil => rfl
  | cons d doc ih =>
    rw [List.foldlM_cons, fillOperations_ok camelize toLowerCase d.path d.operations child
      (h d (List.mem_cons_self _ _))]
    show List.foldlM _ _ doc = _
    rw [ih _ (fun e he => h e (List.mem_cons_of_mem _ he))]
    simp [expectedMethods, List.foldl_append]

theorem fillChild_ok (camelize toLowerCase : String → String) (doc : List OperationGroup)
    (h : ∀ d ∈ doc, ∀ op ∈ d.operations, op.nickname ≠ "")
    (hnd : ((expectedMethods camelize toLowerCase doc).map Prod.fst).Nodup) :
    fillChild camelize toLowerCase doc = .ok (expectedMethods camelize toLowerCase doc) := by
  unfold fillChild
  rw [fillChild_fold_ok camelize toLowerCase doc [] h, foldl_assign_fresh _ [] (by simpa using hnd)]
  rfl

theorem collect_fold_ok (camelize toLowerCase : String → String)
    (groups : List (GroupRef × List OperationGroup)) (api : List (String × Member))
    (h : ∀ g ∈ groups, ∀ d ∈ g.2, ∀ op ∈ d.operations, op.nickname ≠ "")
    (hnd : ∀ g ∈ groups, ((expectedMethods camelize toLowerCase g.2).map Prod.fst).Nodup) :
    groups.foldlM
        (fun api group => do
          let childApi ← fillChild camelize toLowerCase group.2
          pure (assign (rootApiBlockOf camelize group.1) (Member.child childApi) api))
        api
      = Except.ok ((groups.map (fun g =>
          (rootApiBlockOf camelize g.1,
            Member.child (expectedMethods camelize toLowerCase g.2)))).foldl
          (fun acc kv => assign kv.1 kv.2 acc) api) := by
  induction groups generalizing api with
  | nil => rfl
  | cons g groups ih =>
    rw [List.foldlM_cons, fillChild_ok camelize toLowerCase g.2 (h g (List.mem_cons_self _ _))
      (hnd g (List.mem_cons_self _ _))]
    exact ih _ (fun e he => h e (List.mem_cons_of_mem _ he))
      (fun e he => hnd e (List.mem_cons_of_mem _ he))

theorem length_expectedMethods (camelize toLowerCase : String → String)
    (doc : List OperationGroup) :
    (expectedMethods camelize toLowerCase doc).length = operationCount doc := by
  induction doc with
  | nil => rfl
  | cons d doc ih =>
    simp only [expectedMethods, operationCount, List.flatMap_cons, List.length_append,
      List.length_map, List.map_cons, List.sum_cons] at ih ⊢
    rw [ih]

theorem groupChildren_children (camelize toLowerCase : String → String)
    (groups : List (GroupRef × List OperationGroup)) :
    groupChildren (groups.map (fun g =>
        (rootApiBlockOf camelize g.1, Member.child (expectedMethods camelize toLowerCase g.2))))
      = groups.map (expectedChild camelize toLowerCase) := by
  induction groups with
  | nil => rfl
  | cons g groups ih =>
    simp only [groupChildren, List.map_cons, List.filterMap_cons] at ih ⊢
    rw [ih]
    rfl

/-! ## Body validation on an object -/

theorem checkForMissingBodyArgs_obj (requiredArgs : List Parameter)
    (props : List (String × Value)) :
    checkForMissingBodyArgs requiredArgs (.obj props)
      = .ok (requiredArgs.filter (fun arg => decide (arg.name ∈ props.map Prod.fst))) := by
  induction requiredArgs with
  | nil => rfl
  | cons arg rest ih =>
    unfold checkForMissingBodyArgs
    rw [ih]
    by_cases h : arg.name ∈ props.map Prod.fst
    · simp only [List.filter, h, decide_True]
      show Except.ok (if arg.name ∈ props.map Prod.fst then _ else _) = _
      rw [if_pos h]
    · simp only [List.filter, h, decide_False]
      show Except.ok (if arg.name ∈ props.map Prod.fst then _ else _) = _
      rw [if_neg h]

/-! ## Path templating (C1) -/

/-- C1 (evaluation at the failing input): for the path `/users/{id}/posts/{postId}` with the
path parameters `id` and `postId`, the call `(42, 7)` produces the URL path
`/users/7/posts/42`: the scalars are filled in reverse call order, not as `/users/42/posts/7`. -/
theorem requestUrl_reverses_path_scalars :
    requestUrl "" "/users/{id}/posts/{postId}" postOperation [.num 42, .num 7]
        = .ok "/users/7/posts/42"
      ∧ formatArgs [.num 42, .num 7] "GET" postOperation.parameters
        = .ok ([.num 7, .num 42], none, none) := by
  constructor <;> rfl

/-! ## Body validation (C2) -/

/-- C2 (evaluation at the failing input): with the declared body field `name`, the body `{}`
passes `validateBodyArgs` and the body `{name: "x"}` is rejected; in general the helper
throws exactly when some declared name is present among the keys of the body. -/
theorem validateBodyArgs_rejects_present_fields :
    validateBodyArgs [⟨"name", .body⟩] (.obj []) = .ok ()
      ∧ validateBodyArgs [⟨"name", .body⟩] (.obj [("name", .str "x")])
        = .error "Missing body args [ [object Object] ]"
      ∧ ∀ (requiredArgs : List Parameter) (props : List (String × Value)),
          (∃ msg, validateBodyArgs requiredArgs (.obj props) = .error msg)
            ↔ ∃ arg ∈ requiredArgs, arg.name ∈ props.map Prod.fst := by
  refine ⟨rfl, rfl, ?_⟩
  intro requiredArgs props
  have hrun : validateBodyArgs requiredArgs (.obj props)
      = if (requiredArgs.filter (fun arg => decide (arg.name ∈ props.map Prod.fst))).length > 0
        then .error ("Missing body args [ " ++ String.intercalate ","
          ((requiredArgs.filter (fun arg => decide (arg.name ∈ props.map Prod.fst))).map
            (fun _ => "[object Object]")) ++ " ]")
        else .ok () := by
    unfold validateBodyArgs
    rw [checkForMissingBodyArgs_obj]
    show (if _ then _ else _) = _
    split <;> rfl
  rw [hrun]
  constructor
  · rintro ⟨msg, hmsg⟩
    by_cases hlen : (requiredArgs.filter
        (fun arg => decide (arg.name ∈ props.map Prod.fst))).length > 0
    · obtain ⟨arg, harg⟩ := List.exists_mem_of_length_pos hlen
      rw [List.mem_filter] at harg
      exact ⟨arg, harg.1, by simpa using harg.2⟩
    · rw [if_neg hlen] at hmsg
      cases hmsg
  · rintro ⟨arg, hmem, hkey⟩
    have hin : arg ∈ requiredArgs.filter (fun arg => decide (arg.name ∈ props.map Prod.fst)) :=
      List.mem_filter.mpr ⟨hmem, by simpa using hkey⟩
    have hlen : (requiredArgs.filter
        (fun arg => decide (arg.name ∈ props.map Prod.fst))).length > 0 :=
      List.length_pos_of_mem hin
    rw [if_pos hlen]
    exact ⟨_, rfl⟩

/-! ## Path-count validation (C3) -/

/-- C3: `validateUrlArgs` throws if and only if the length of the path list differs from the
number of declared path parameters, and the message it throws contains the names of the
declared path parameters joined by commas, in declaration order. -/
theorem validateUrlArgs_throws_iff (requiredArgs : List Parameter) (args : List Value) :
    ((∃ msg, validateUrlArgs requiredArgs args = .error msg)
        ↔ args.length ≠ requiredArgs.length)
      ∧ ∀ msg, validateUrlArgs requiredArgs args = .error msg →
          ∃ before after, msg = before
            ++ String.intercalate "," (requiredArgs.map (fun arg => arg.name)) ++ after := by
  unfold validateUrlArgs
  by_cases hlen : args.length ≠ requiredArgs.length
  · rw [if_pos hlen]
    refine ⟨⟨fun _ => hlen, fun _ => ⟨_, rfl⟩⟩, ?_⟩
    intro msg hmsg
    injection hmsg with hmsg
    exact ⟨_, " ]", hmsg.symm⟩
  · rw [if_neg hlen]
    refine ⟨⟨?_, fun h => absurd h hlen⟩, ?_⟩
    · rintro ⟨msg, hmsg⟩
      cases hmsg
    · intro msg hmsg
      cases hmsg

/-- C3 at a concrete call: one scalar against the two declared path parameters `id` and
`postId` is rejected, and the message lists `id,postId`. -/
theorem validateUrlArgs_throws_iff_witness :
    validateUrlArgs postOperation.parameters [.num 42]
        = .error "2 required, only recieved 1. [ id,postId ]"
      ∧ ∃ before after, "2 required, only recieved 1. [ id,postId ]" = before
          ++ String.intercalate "," (postOperation.parameters.map (fun arg => arg.name))
          ++ after :=
  ⟨rfl, (validateUrlArgs_throws_iff postOperation.parameters [.num 42]).2 _ rfl⟩

/-! ## Query templating (C4) -/

/-- C4 (evaluation at the failing input): with the template `?limit={limit}&offset={offset}`
the query `{offset: 5}` yields `?&offset=5`, so the connector of the stripped first fragment
is left over; the query `{limit: 10}` yields `?limit=10`; and the brace-free value `$&`,
a replacement pattern of `replace`, puts the placeholder back, which is then stripped. -/
theorem formatQuery_leaves_connector :
    formatQuery (some (.obj [("offset", .num 5)])) listNotes = .ok "?&offset=5"
      ∧ formatQuery (some (.obj [("limit", .num 10)])) listNotes = .ok "?limit=10"
      ∧ formatQuery (some (.obj [("limit", .str "$&")])) listNotes = .ok "?" := by
  refine ⟨?_, ?_, ?_⟩ <;> rfl

/-! ## Query objects (C5) -/

/-- C5 (amended): an object argument with at least one key, whose keys are all names of
declared `query` parameters and name no declared parameter of another `paramType` (`body`,
`path` or any other), and which is the only object of the call, is returned by `formatArgs`
as the query component; the body component is undefined and the scalars form the path
list. -/
theorem formatArgs_query_object (pre post : List Value) (props : List (String × Value))
    (method : String) (params : List Parameter)
    (hpre : ∀ a ∈ pre, a.typeofObject = false) (hpost : ∀ a ∈ post, a.typeofObject = false)
    (hkey : props ≠ [])
    (hquery : ∀ k ∈ props.map Prod.fst, ∃ p ∈ params, p.name = k ∧ p.paramType = .query)
    (honly : ∀ p ∈ params, p.name ∈ props.map Prod.fst → p.paramType = .query) :
    formatArgs (pre ++ .obj props :: post) method params
      = .ok (post.reverse ++ pre.reverse, some (.obj props), none) := by
  have hne : params ≠ [] := by
    cases props with
    | nil => exact absurd rfl hkey
    | cons kv rest =>
      obtain ⟨p, hp, _, _⟩ := hquery kv.1 (by simp)
      exact List.ne_nil_of_mem hp
  have hdet : determineArgTypes (.obj props) params = .ok (some .query) := by
    obtain ⟨r, hr, _, hmax, _⟩ := determineArgTypes_last_max props params hne
    have hpos : 0 < bucketCount (props.map Prod.fst) params .query := by
      cases props with
      | nil => exact absurd rfl hkey
      | cons kv rest =>
        obtain ⟨p, hp, hname, htype⟩ := hquery kv.1 (by simp)
        exact bucketCount_pos _ params .query p hp htype (by rw [hname]; simp)
    have hq : ParamType.query ∈ declaredTypes params := by
      cases props with
      | nil => exact absurd rfl hkey
      | cons kv rest =>
        obtain ⟨p, hp, _, htype⟩ := hquery kv.1 (by simp)
        exact List.mem_map.mpr ⟨p, hp, htype⟩
    have hle := hmax .query hq
    have hr2 : r = .query := by
      by_contra hrne
      have hzero : bucketCount (props.map Prod.fst) params r = 0 :=
        bucketCount_eq_zero _ params r (fun p hp hk ht => hrne (by rw [← ht, honly p hp hk]))
      omega
    rw [hr, hr2]
  rw [formatArgs_eq_loop, List.reverse_append, List.reverse_cons, List.append_assoc,
    formatArgsLoop_append,
    formatArgsLoop_scalars params post.reverse _ (fun a ha => hpost a (List.mem_reverse.mp ha))]
  show (formatArgsLoop params ([Value.obj props] ++ pre.reverse) _).bind _ = _
  rw [List.singleton_append, formatArgsLoop_cons, formatArgsStep_obj params _ props _ hdet]
  show (formatArgsLoop params pre.reverse _).bind _ = _
  rw [formatArgsLoop_scalars params pre.reverse _ (fun a ha => hpre a (List.mem_reverse.mp ha))]
  simp [Except.bind]

/-- C5 at a concrete call: `(42, {limit: 10})` against `itemParams`. -/
theorem formatArgs_query_object_witness :
    (∀ k ∈ [("limit", Value.num 10)].map Prod.fst,
        ∃ p ∈ itemParams, p.name = k ∧ p.paramType = .query)
      ∧ formatArgs ([.num 42] ++ .obj [("limit", .num 10)] :: []) "GET" itemParams
        = .ok ([].reverse ++ [.num 42].reverse, some (.obj [("limit", .num 10)]), none) :=
  ⟨by simp [itemParams],
    formatArgs_query_object [.num 42] [] [("limit", .num 10)] "GET" itemParams
      (by simp [Value.typeofObject]) (by simp) (by simp) (by simp [itemParams])
      (by simp [itemParams])⟩

/-- C5 (counterexample): the empty object, whose keys are vacuously all `query` names, is
returned as the body when a `body` parameter is declared after the `query` parameters; an
object whose only key names both a `query` and a `path` parameter goes to the path list;
and an object whose only key names both a `query` and a `header` parameter is stored under
`header` and is in none of the returned components. -/
theorem formatArgs_query_object_counterexample :
    formatArgs [.obj []] "GET" [⟨"limit", .query⟩, ⟨"name", .body⟩]
        = .ok ([], none, some (.obj []))
      ∧ formatArgs [.obj [("id", .num 1)]] "GET" [⟨"id", .query⟩, ⟨"id", .path⟩]
        = .ok ([.obj [("id", .num 1)]], none, none)
      ∧ formatArgs [.obj [("limit", .num 10)]] "GET"
          [⟨"limit", .query⟩, ⟨"limit", .other "header"⟩]
        = .ok ([], none, none) :=
  ⟨rfl, rfl, rfl⟩

/-! ## Tie-breaking (C6) -/

/-- C6 (amended): for every object and every non-empty parameter list, `determineArgTypes`
returns a declared bucket of highest count, and every other declared bucket with the same
count is first declared before the returned one: among tied buckets the one that comes last
in order of first declaration is returned. -/
theorem determineArgTypes_tie_last (props : List (String × Value)) (params : List Parameter)
    (hne : params ≠ []) :
    ∃ r, determineArgTypes (.obj props) params = .ok (some r)
      ∧ r ∈ declaredTypes params
      ∧ (∀ t ∈ declaredTypes params, bucketCount (props.map Prod.fst) params t
          ≤ bucketCount (props.map Prod.fst) params r)
      ∧ ∀ t ∈ declaredTypes params, t ≠ r →
          bucketCount (props.map Prod.fst) params t = bucketCount (props.map Prod.fst) params r →
          List.indexOf t (declaredTypes params) < List.indexOf r (declaredTypes params) :=
  determineArgTypes_last_max props params hne

/-- C6 at a concrete call: the object `{limit: 10, name: "x"}` ties `query` with `body`. -/
theorem determineArgTypes_tie_last_witness :
    itemParams ≠ []
      ∧ ∃ r, determineArgTypes (.obj [("limit", .num 10), ("name", .str "x")]) itemParams
          = .ok (some r)
        ∧ r ∈ declaredTypes itemParams
        ∧ (∀ t ∈ declaredTypes itemParams,
            bucketCount ([("limit", Value.num 10), ("name", .str "x")].map Prod.fst) itemParams t
              ≤ bucketCount ([("limit", Value.num 10), ("name", .str "x")].map Prod.fst)
                itemParams r)
        ∧ ∀ t ∈ declaredTypes itemParams, t ≠ r →
            bucketCount ([("limit", Value.num 10), ("name", .str "x")].map Prod.fst) itemParams t
              = bucketCount ([("limit", Value.num 10), ("name", .str "x")].map Prod.fst)
                itemParams r →
            List.indexOf t (declaredTypes itemParams) < List.indexOf r (declaredTypes itemParams) :=
  ⟨by simp [itemParams],
    determineArgTypes_tie_last [("limit", .num 10), ("name", .str "x")] itemParams
      (by simp [itemParams])⟩

/-- C6 (counterexample): for the object `{}` and the parameters `id` (path) and `limit`
(query) both buckets have count 0 and `path` is declared first, yet `determineArgTypes`
returns `query`. -/
theorem determineArgTypes_tie_counterexample :
    determineArgTypes (.obj []) [⟨"id", .path⟩, ⟨"limit", .query⟩] = .ok (some .query)
      ∧ bucketCount [] [⟨"id", .path⟩, ⟨"limit", .query⟩] .path
        = bucketCount [] [⟨"id", .path⟩, ⟨"limit", .query⟩] .query
      ∧ List.indexOf ParamType.path (declaredTypes [⟨"id", .path⟩, ⟨"limit", .query⟩])
        < List.indexOf ParamType.query (declaredTypes [⟨"id", .path⟩, ⟨"limit", .query⟩]) :=
  ⟨rfl, rfl, by decide⟩

/-! ## Maximal bucket (C7) -/

/-- C7: for every object and every non-empty parameter list, `determineArgTypes` returns a
`paramType` that occurs among the declared parameters, and the number of its declared names
that are keys of the object is at least the number for every declared `paramType`. -/
theorem determineArgTypes_maximal (props : List (String × Value)) (params : List Parameter)
    (hne : params ≠ []) :
    ∃ r, determineArgTypes (.obj props) params = .ok (some r)
      ∧ (∃ p ∈ params, p.paramType = r)
      ∧ ∀ p ∈ params, bucketCount (props.map Prod.fst) params p.paramType
          ≤ bucketCount (props.map Prod.fst) params r := by
  obtain ⟨r, hr, hmem, hmax, _⟩ := determineArgTypes_last_max props params hne
  refine ⟨r, hr, ?_, ?_⟩
  · obtain ⟨p, hp, hpr⟩ := List.mem_map.mp hmem
    exact ⟨p, hp, hpr⟩
  · intro p hp
    exact hmax p.paramType (List.mem_map.mpr ⟨p, hp, rfl⟩)

/-- C7 at a concrete call: the object `{limit: 10}` against `itemParams`. -/
theorem determineArgTypes_maximal_witness :
    itemParams ≠ []
      ∧ ∃ r, determineArgTypes (.obj [("limit", .num 10)]) itemParams = .ok (some r)
        ∧ (∃ p ∈ itemParams, p.paramType = r)
        ∧ ∀ p ∈ itemParams,
            bucketCount ([("limit", Value.num 10)].map Prod.fst) itemParams p.paramType
              ≤ bucketCount ([("limit", Value.num 10)].map Prod.fst) itemParams r :=
  ⟨by simp [itemParams],
    determineArgTypes_maximal [("limit", .num 10)] itemParams (by simp [itemParams])⟩

/-! ## Scalars (C8) -/

/-- C8 (amended): for every argument list in which no argument is `null` and every
parameter list, `formatArgs` returns; every non-object argument is in the returned path
list, the path list holds as many scalars as the call has scalar arguments (they are the
scalar arguments in reverse call order), and a query or body component that is defined is a
non-null object. -/
theorem formatArgs_scalars_to_path (args : List Value) (method : String)
    (params : List Parameter) (hnull : ∀ a ∈ args, a ≠ Value.null) :
    ∃ path query body, formatArgs args method params = .ok (path, query, body)
      ∧ (∀ a ∈ args, a.typeofObject = false → a ∈ path)
      ∧ (path.filter isScalar).length = (args.filter isScalar).length
      ∧ path.filter isScalar = (args.filter isScalar).reverse
      ∧ (∀ q, query = some q → ∃ props, q = .obj props)
      ∧ (∀ b, body = some b → ∃ props, b = .obj props) := by
  obtain ⟨final, hfinal⟩ := formatArgsLoop_ok params args.reverse
    { path := [], query := none, body := none, others := [] }
    (fun a ha => hnull a (List.mem_reverse.mp ha))
  obtain ⟨hp, hq, hb⟩ := formatArgsLoop_scalars_kept params args.reverse _ final hfinal
  have hfilter : final.path.filter isScalar = (args.filter isScalar).reverse := by
    rw [hp, List.filter_reverse]
    rfl
  refine ⟨final.path, final.query, final.body, ?_, ?_, ?_, hfilter, ?_, ?_⟩
  · rw [formatArgs_eq_loop, hfinal]
    rfl
  · intro a ha hs
    have hmem : a ∈ final.path.filter isScalar := by
      rw [hfilter, List.mem_reverse, List.mem_filter]
      exact ⟨ha, by simp [isScalar, hs]⟩
    exact (List.mem_filter.mp hmem).1
  · rw [hfilter, List.length_reverse]
  · exact hq (fun q h => by cases h)
  · exact hb (fun b h => by cases h)

/-- C8 at a concrete call: `(42, {limit: 10}, "a", {name: "x"})` against `itemParams`. -/
theorem formatArgs_scalars_to_path_witness :
    (∀ a ∈ [Value.num 42, .obj [("limit", .num 10)], .str "a", .obj [("name", .str "x")]],
        a ≠ Value.null)
      ∧ formatArgs [.num 42, .obj [("limit", .num 10)], .str "a", .obj [("name", .str "x")]]
          "POST" itemParams
        = .ok ([.str "a", .num 42], some (.obj [("limit", .num 10)]),
            some (.obj [("name", .str "x")]))
      ∧ ∃ path query body,
          formatArgs [.num 42, .obj [("limit", .num 10)], .str "a", .obj [("name", .str "x")]]
            "POST" itemParams = .ok (path, query, body)
          ∧ (∀ a ∈ [Value.num 42, .obj [("limit", .num 10)], .str "a",
                .obj [("name", .str "x")]], a.typeofObject = false → a ∈ path)
          ∧ (path.filter isScalar).length
            = ([Value.num 42, .obj [("limit", .num 10)], .str "a",
                .obj [("name", .str "x")]].filter isScalar).length
          ∧ path.filter isScalar
            = ([Value.num 42, .obj [("limit", .num 10)], .str "a",
                .obj [("name", .str "x")]].filter isScalar).reverse
          ∧ (∀ q, query = some q → ∃ props, q = .obj props)
          ∧ (∀ b, body = some b → ∃ props, b = .obj props) :=
  ⟨by simp, rfl,
    formatArgs_scalars_to_path
      [.num 42, .obj [("limit", .num 10)], .str "a", .obj [("name", .str "x")]] "POST"
      itemParams (by simp)⟩

/-- C8 (counterexample): the call `(1, null)` throws the `TypeError` of `Object.keys(null)`,
so nothing is returned and the scalar `1` reaches no path list. -/
theorem formatArgs_scalars_to_path_counterexample :
    formatArgs [.num 1, .null] "GET" itemParams = .error typeErrorNullish
      ∧ (Value.num 1).typeofObject = false
      ∧ ¬ ∃ path query body, formatArgs [.num 1, .null] "GET" itemParams
          = .ok (path, query, body) := by
  refine ⟨rfl, rfl, ?_⟩
  rintro ⟨path, query, body, h⟩
  have herr : formatArgs [.num 1, .null] "GET" itemParams = .error typeErrorNullish := rfl
  rw [herr] at h
  cases h

/-! ## One object per bucket (C9) -/

/-- C9 (amended): in a call without a `null` argument whose rightmost argument inferred as
bucket `B` (`query` or `body`) is `last`, `formatArgs` returns, it assigns `last` to the
component of `B`, and the other arguments inferred as `B` are all in the returned path
list: the objects of the path list inferred as `B` are exactly those, in reverse call
order. -/
theorem formatArgs_rightmost_wins (pre post : List Value) (last : Value) (method : String)
    (params : List Parameter) (B : ParamType) (hB : B = .query ∨ B = .body)
    (hlast : inferredAs params B last = true)
    (hpost : ∀ a ∈ post, inferredAs params B a = false)
    (hnn : ∀ a ∈ pre ++ last :: post, a ≠ Value.null) :
    ∃ result, formatArgs (pre ++ last :: post) method params = .ok result
      ∧ componentOf result B = some last
      ∧ (∀ a ∈ pre, inferredAs params B a = true → a ∈ result.1)
      ∧ result.1.filter (inferredAs params B) = (pre.filter (inferredAs params B)).reverse := by
  obtain ⟨rv1, h1⟩ := formatArgsLoop_ok params post.reverse
    { path := [], query := none, body := none, others := [] }
    (fun a ha => hnn a (by simp [List.mem_reverse.mp ha]))
  obtain ⟨hs1, hp1⟩ := formatArgsLoop_slot_none params post.reverse _ rv1 B
    (by cases B <;> rfl) (fun a ha => hpost a (List.mem_reverse.mp ha)) h1
  have h2 := formatArgsStep_inferred_empty params rv1 last B hB hlast hs1
  obtain ⟨final, h3⟩ := formatArgsLoop_ok params pre.reverse (rv1.setSlot B last)
    (fun a ha => hnn a (by simp [List.mem_reverse.mp ha]))
  have hset : (rv1.setSlot B last).slot B = some last := by
    rcases hB with rfl | rfl <;> rfl
  have hpath : (rv1.setSlot B last).path = rv1.path := by
    cases B <;> rfl
  obtain ⟨hs3, hp3⟩ := formatArgsLoop_slot_full params pre.reverse _ final last B hset h3
  have hrun : formatArgs (pre ++ last :: post) method params
      = .ok (final.path, final.query, final.body) := by
    rw [formatArgs_eq_loop, List.reverse_append, List.reverse_cons, List.append_assoc,
      formatArgsLoop_append, h1]
    show (formatArgsLoop params ([last] ++ pre.reverse) rv1).bind _ = _
    rw [List.singleton_append, formatArgsLoop_cons, h2]
    show (formatArgsLoop params pre.reverse (rv1.setSlot B last)).bind _ = _
    rw [h3]
    rfl
  have hfilter : final.path.filter (inferredAs params B)
      = (pre.filter (inferredAs params B)).reverse := by
    rw [hp3, hpath, hp1, List.filter_reverse]
    rfl
  refine ⟨_, hrun, ?_, ?_, hfilter⟩
  · rw [componentOf_eq_slot]
    exact hs3
  · intro a ha hinf
    have hmem : a ∈ final.path.filter (inferredAs params B) := by
      rw [hfilter, List.mem_reverse, List.mem_filter]
      exact ⟨ha, hinf⟩
    exact (List.mem_filter.mp hmem).1

/-- C9 at a concrete call: `({limit: 1}, 42, {offset: 2})` against `itemParams`; both
objects are inferred as `query`, the rightmost is the query and the other is in the path. -/
theorem formatArgs_rightmost_wins_witness :
    inferredAs itemParams .query (.obj [("limit", .num 1)]) = true
      ∧ inferredAs itemParams .query (.obj [("offset", .num 2)]) = true
      ∧ formatArgs [.obj [("limit", .num 1)], .num 42, .obj [("offset", .num 2)]] "GET" itemParams
        = .ok ([.num 42, .obj [("limit", .num 1)]], some (.obj [("offset", .num 2)]), none)
      ∧ ∃ result, formatArgs ([.obj [("limit", .num 1)], .num 42]
            ++ .obj [("offset", .num 2)] :: []) "GET" itemParams = .ok result
          ∧ componentOf result .query = some (.obj [("offset", .num 2)])
          ∧ (∀ a ∈ [Value.obj [("limit", .num 1)], .num 42],
              inferredAs itemParams .query a = true → a ∈ result.1)
          ∧ result.1.filter (inferredAs itemParams .query)
            = ([Value.obj [("limit", .num 1)], .num 42].filter
                (inferredAs itemParams .query)).reverse :=
  ⟨rfl, rfl, rfl,
    formatArgs_rightmost_wins [.obj [("limit", .num 1)], .num 42] [] (.obj [("offset", .num 2)])
      "GET" itemParams .query (Or.inl rfl) rfl (by simp) (by simp)⟩

/-- C9 (counterexample): in the call `({limit: 1}, null, {offset: 2})` both objects are
inferred as `query`, and the call throws the `TypeError` of `Object.keys(null)`: neither
object is assigned to the query component or placed in a path list. -/
theorem formatArgs_rightmost_wins_counterexample :
    inferredAs itemParams .query (.obj [("limit", .num 1)]) = true
      ∧ inferredAs itemParams .query (.obj [("offset", .num 2)]) = true
      ∧ formatArgs [.obj [("limit", .num 1)], .null, .obj [("offset", .num 2)]] "GET" itemParams
        = .error typeErrorNullish :=
  ⟨rfl, rfl, rfl⟩

/-! ## Client tree shape (C10) -/

/-- C10 (amended): for every discovery document whose operation nicknames are non-empty,
whose group names are pairwise distinct and whose member names are pairwise distinct within
each group, the client tree is built, its group children are exactly one child per group
(`N` of them), named by the camelized group path without its first slash, and the child of a
group has exactly one member per operation of the group document (`M` of them), named by
the camelized nickname with its first character lower-cased. -/
theorem collectSwaggerDocs_shape (camelize toLowerCase : String → String)
    (groups : List (GroupRef × List OperationGroup))
    (hnick : ∀ g ∈ groups, ∀ d ∈ g.2, ∀ op ∈ d.operations, op.nickname ≠ "")
    (hgroups : (groups.map (fun g => rootApiBlockOf camelize g.1)).Nodup)
    (hmembers : ∀ g ∈ groups, ((expectedMethods camelize toLowerCase g.2).map Prod.fst).Nodup) :
    ∃ api, collectSwaggerDocs camelize toLowerCase groups = .ok api
      ∧ (groupChildren api).Perm (groups.map (expectedChild camelize toLowerCase))
      ∧ (groupChildren api).length = groups.length
      ∧ ∀ g ∈ groups, ∃ methods,
          (rootApiBlockOf camelize g.1, methods) ∈ groupChildren api
            ∧ methods.map Prod.fst = (expectedMethods camelize toLowerCase g.2).map Prod.fst
            ∧ methods.length = operationCount g.2 := by
  have hrun := collect_fold_ok camelize toLowerCase groups [("printDocs", Member.printDocs)]
    hnick hmembers
  have hkeys : ((groups.map (fun g => (rootApiBlockOf camelize g.1,
      Member.child (expectedMethods camelize toLowerCase g.2)))).map Prod.fst).Nodup := by
    rw [List.map_map]
    exact hgroups
  have hperm := foldl_assign_perm
    (groups.map (fun g => (rootApiBlockOf camelize g.1,
      Member.child (expectedMethods camelize toLowerCase g.2))))
    [("printDocs", Member.printDocs)] hkeys (by simp)
  have hchildren := hperm.filterMap (fun m =>
    match m.2 with
    | .child methods => some (m.1, methods)
    | .printDocs => none)
  have hgc : (groupChildren ((groups.map (fun g => (rootApiBlockOf camelize g.1,
      Member.child (expectedMethods camelize toLowerCase g.2)))).foldl
      (fun acc kv => assign kv.1 kv.2 acc) [("printDocs", Member.printDocs)])).Perm
      (groups.map (expectedChild camelize toLowerCase)) := by
    refine hchildren.trans ?_
    rw [List.filterMap_append]
    have hleft : List.filterMap (fun m : String × Member =>
        match m.2 with
        | .child methods => some (m.1, methods)
        | .printDocs => none)
        (List.filter (fun e => decide (e.1 ∉ (groups.map (fun g =>
          (rootApiBlockOf camelize g.1,
            Member.child (expectedMethods camelize toLowerCase g.2)))).map Prod.fst))
          [("printDocs", Member.printDocs)]) = [] := by
      simp only [List.filter]
      split <;> rfl
    rw [hleft, List.nil_append]
    exact List.Perm.of_eq (groupChildren_children camelize toLowerCase groups)
  refine ⟨_, hrun, hgc, ?_, ?_⟩
  · rw [hgc.length_eq, List.length_map]
  · intro g hg
    refine ⟨expectedMethods camelize toLowerCase g.2, ?_, rfl,
      length_expectedMethods camelize toLowerCase g.2⟩
    rw [hgc.mem_iff]
    exact List.mem_map.mpr ⟨g, hg, rfl⟩

/-- C10 at a concrete document: the two groups `/users` and `/posts`, with `humps.camelize`
acting as the identity on the names involved. -/
theorem collectSwaggerDocs_shape_witness :
    (twoGroups.map (fun g => rootApiBlockOf id g.1)).Nodup
      ∧ collectSwaggerDocs id asciiLowerCase twoGroups
        = .ok [("printDocs", .printDocs),
            ("users", .child [("getUser", ⟨"/users/{id}", getUserOperation⟩)]),
            ("posts", .child [("listPosts", ⟨"/posts", listPostsOperation⟩)])]
      ∧ ∃ api, collectSwaggerDocs id asciiLowerCase twoGroups = .ok api
        ∧ (groupChildren api).Perm (twoGroups.map (expectedChild id asciiLowerCase))
        ∧ (groupChildren api).length = twoGroups.length
        ∧ ∀ g ∈ twoGroups, ∃ methods,
            (rootApiBlockOf id g.1, methods) ∈ groupChildren api
              ∧ methods.map Prod.fst = (expectedMethods id asciiLowerCase g.2).map Prod.fst
              ∧ methods.length = operationCount g.2 :=
  ⟨by decide, rfl,
    collectSwaggerDocs_shape id asciiLowerCase twoGroups (by decide) (by decide) (by decide)⟩

/-- C10 (counterexample): the group `/users` lists the two operations `GetUser` and `getUser`;
both get the member name `getUser`, and the child of the group has one member, not two. Two
groups with the paths `/users` and `users` get the same name and the tree has one group
child, not two. An operation with an empty nickname throws and no tree is built. -/
theorem collectSwaggerDocs_shape_counterexample :
    collectSwaggerDocs id asciiLowerCase clashingGroup
        = .ok [("printDocs", .printDocs),
            ("users", .child [("getUser", ⟨"/users/{id}", deleteUserOperation⟩)])]
      ∧ clashingGroup.map (fun g => operationCount g.2) = [2]
      ∧ collectSwaggerDocs id asciiLowerCase
          [(⟨"/users", "Users"⟩, [⟨"/users/{id}", "A user", [getUserOperation]⟩]),
           (⟨"users", "Users"⟩, [⟨"/posts", "All posts", [listPostsOperation]⟩])]
        = .ok [("printDocs", .printDocs),
            ("users", .child [("listPosts", ⟨"/posts", listPostsOperation⟩)])]
      ∧ collectSwaggerDocs id asciiLowerCase
          [(⟨"/users", "Users"⟩, [⟨"/users/{id}", "A user",
            [{ getUserOperation with nickname := "" }]⟩])]
        = .error "TypeError: Cannot read properties of undefined (reading 'toLowerCase')" :=
  ⟨rfl, rfl, rfl, rfl⟩

/-! ## Further lemmas on headers and on the loop of `formatArgs` -/

theorem nodup_keys_foldl_assign {α : Type} (pairs o : List (String × α))
    (ho : (o.map Prod.fst).Nodup) :
    ((pairs.foldl (fun acc kv => assign kv.1 kv.2 acc) o).map Prod.fst).Nodup := by
  induction pairs generalizing o with
  | nil => exact ho
  | cons kv ps ih =>
    rw [List.foldl_cons]
    exact ih _ (nodup_keys_assign kv.1 kv.2 o ho)

theorem generatedFetch_headers (stringify : Value → String) (headers : List (String × String))
    (apiBase templatePath : String) (operation : Operation) (args : List Value)
    (call : FetchCall)
    (h : generatedFetch stringify headers apiBase templatePath operation args = .ok call) :
    call.headers = mergeHeaders headers := by
  unfold generatedFetch at h
  cases hf : formatArgs args operation.method operation.parameters with
  | error e => rw [hf] at h; cases h
  | ok result =>
    obtain ⟨urlArgs, query, body⟩ := result
    rw [hf] at h
    cases hu : requestUrl apiBase templatePath operation args with
    | error e =>
      simp only [bind, Except.bind, hu] at h
      cases h
    | ok url =>
      simp only [bind, Except.bind, hu, pure, Except.pure] at h
      injection h with h
      rw [← h]

theorem determineArgTypes_exclusive (props : List (String × Value)) (params : List Parameter)
    (B : ParamType) (hkey : props ≠ [])
    (hall : ∀ k ∈ props.map Prod.fst, ∃ p ∈ params, p.name = k ∧ p.paramType = B)
    (honly : ∀ p ∈ params, p.name ∈ props.map Prod.fst → p.paramType = B) :
    determineArgTypes (.obj props) params = .ok (some B) := by
  cases props with
  | nil => exact absurd rfl hkey
  | cons kv rest =>
    obtain ⟨p, hp, hname, htype⟩ := hall kv.1 (by simp)
    obtain ⟨r, hr, _, hmax, _⟩ :=
      determineArgTypes_last_max (kv :: rest) params (List.ne_nil_of_mem hp)
    have hpos : 0 < bucketCount ((kv :: rest).map Prod.fst) params B :=
      bucketCount_pos _ params B p hp htype (by rw [hname]; simp)
    have hle := hmax B (List.mem_map.mpr ⟨p, hp, htype⟩)
    have hr2 : r = B := by
      by_contra hrne
      have hzero : bucketCount ((kv :: rest).map Prod.fst) params r = 0 :=
        bucketCount_eq_zero _ params r (fun p hp hk ht => hrne (by rw [← ht, honly p hp hk]))
      omega
    rw [hr, hr2]

theorem formatArgsStep_count (params : List Parameter) (rv next : ReturnValues) (a : Value)
    (h : formatArgsStep params rv a = .ok next) :
    next.path.length + definedCount next.query + definedCount next.body + next.others.length
      = rv.path.length + definedCount rv.query + definedCount rv.body + rv.others.length
        + 1 := by
  rcases formatArgsStep_cases params rv next a h with
    h | ⟨_, _, _, hq, h⟩ | ⟨_, _, _, hb, h⟩ | ⟨_, _, _, _, _, _, h⟩
  · subst h
    simp only [pushPath, List.length_append, List.length_singleton]
    omega
  · subst h
    simp only [hq, definedCount]
    omega
  · subst h
    simp only [hb, definedCount]
    omega
  · subst h
    simp only [List.length_append, List.length_singleton]
    omega

theorem formatArgsStep_others (params : List Parameter) (rv next : ReturnValues)
    (a : Value) (hne : params ≠ [])
    (hbasic : ∀ p ∈ params, p.paramType = .path ∨ p.paramType = .query ∨ p.paramType = .body)
    (hu : rv.others = [])
    (h : formatArgsStep params rv a = .ok next) : next.others = [] := by
  rcases formatArgsStep_cases params rv next a h with
    h | ⟨_, _, _, _, h⟩ | ⟨_, _, _, _, h⟩ | ⟨props, t, hobj, hdet, ht, _, _⟩
  · subst h
    exact hu
  · subst h
    exact hu
  · subst h
    exact hu
  · exfalso
    subst hobj
    obtain ⟨r, hr, hmem, _, _⟩ := determineArgTypes_last_max props params hne
    rw [hr] at hdet
    injection hdet with hdet
    obtain ⟨p, hp, hpr⟩ := List.mem_map.mp hmem
    have hb := hbasic p hp
    rw [hpr] at hb
    rcases ht with ht | ⟨name, ht⟩
    · rw [ht] at hdet
      cases hdet
    · rw [ht] at hdet
      injection hdet with hdet
      rw [hdet] at hb
      rcases hb with hb | hb | hb <;> cases hb

theorem formatArgsLoop_count (params : List Parameter) (l : List Value)
    (rv final : ReturnValues) (h : formatArgsLoop params l rv = .ok final) :
    final.path.length + definedCount final.query + definedCount final.body
        + final.others.length
      = rv.path.length + definedCount rv.query + definedCount rv.body + rv.others.length
        + l.length := by
  induction l generalizing rv with
  | nil =>
    injection h with h
    subst h
    rfl
  | cons a l ih =>
    rw [formatArgsLoop_cons] at h
    cases hstep : formatArgsStep params rv a with
    | error e => rw [hstep] at h; cases h
    | ok next =>
      rw [hstep] at h
      have h1 := formatArgsStep_count params rv next a hstep
      have h2 := ih next h
      rw [List.length_cons]
      omega

theorem formatArgsLoop_others (params : List Parameter) (l : List Value)
    (rv final : ReturnValues) (hne : params ≠ [])
    (hbasic : ∀ p ∈ params, p.paramType = .path ∨ p.paramType = .query ∨ p.paramType = .body)
    (hu : rv.others = [])
    (h : formatArgsLoop params l rv = .ok final) : final.others = [] := by
  induction l generalizing rv with
  | nil =>
    injection h with h
    subst h
    exact hu
  | cons a l ih =>
    rw [formatArgsLoop_cons] at h
    cases hstep : formatArgsStep params rv a with
    | error e => rw [hstep] at h; cases h
    | ok next =>
      rw [hstep] at h
      exact ih next (formatArgsStep_others params rv next a hne hbasic hu hstep) h

/-! ## Status dispatch (C11) -/

/-- C11 (amended): for every response with a string content type, the response handler fails
if and only if the status is not 200, or the status is 200, the content type contains
`application/json` and not `text/html`, and `res.json()` rejects; when the status is not 200
(whatever the content type) the error message contains the status code and the status text. -/
theorem handleResponse_fails_iff (camelizeKeys : Value → Value) (res : Response)
    (contentType : String) (hct : res.contentType = some contentType) :
    ((∃ msg, handleResponse camelizeKeys res = .error msg)
        ↔ (res.status ≠ 200
            ∨ (res.status = 200 ∧ indexOfFound contentType "text/html" = false
                ∧ indexOfFound contentType "application/json" = true
                ∧ ∃ e, res.json = .error e)))
      ∧ (res.status ≠ 200 →
          handleResponse camelizeKeys res
              = .error ("API ERROR: " ++ toString res.status ++ " " ++ res.statusText)
            ∧ (∃ before after, "API ERROR: " ++ toString res.status ++ " " ++ res.statusText
                = before ++ toString res.status ++ after)
            ∧ ∃ before after, "API ERROR: " ++ toString res.status ++ " " ++ res.statusText
                = before ++ res.statusText ++ after) := by
  constructor
  · unfold handleResponse
    by_cases hs : res.status = 200
    · rw [if_pos hs, hct]
      simp only [hs, ne_eq, not_true_eq_false, false_or, true_and]
      cases hhtml : indexOfFound contentType "text/html" with
      | true =>
        simp only [if_true]
        constructor
        · rintro ⟨msg, hmsg⟩
          cases hmsg
        · rintro ⟨h, _⟩
          cases h
      | false =>
        cases hjson : indexOfFound contentType "application/json" with
        | true =>
          cases hres : res.json with
          | ok value =>
            simp only [Bool.false_eq_true, if_false, if_true]
            constructor
            · rintro ⟨msg, hmsg⟩
              cases hmsg
            · rintro ⟨_, _, e, he⟩
              cases he
          | error e =>
            simp only [Bool.false_eq_true, if_false, if_true]
            exact ⟨fun _ => ⟨trivial, trivial, e, rfl⟩, fun _ => ⟨e, rfl⟩⟩
        | false =>
          simp only [Bool.false_eq_true, if_false]
          constructor
          · rintro ⟨msg, hmsg⟩
            cases hmsg
          · rintro ⟨_, h, _⟩
            cases h
    · rw [if_neg hs]
      exact ⟨fun _ => Or.inl hs, fun _ => ⟨_, rfl⟩⟩
  · intro hs
    refine ⟨?_, ⟨"API ERROR: ", " " ++ res.statusText, ?_⟩,
      ⟨"API ERROR: " ++ toString res.status ++ " ", "", ?_⟩⟩
    · unfold handleResponse
      rw [if_neg hs]
    · simp [String.append_assoc]
    · simp

/-- C11 at a concrete response: status 404 with the status text `Not Found`. -/
theorem handleResponse_fails_iff_witness :
    notFoundResponse.contentType = some "text/html"
      ∧ notFoundResponse.status ≠ 200
      ∧ handleResponse id notFoundResponse = .error "API ERROR: 404 Not Found"
      ∧ ((∃ msg, handleResponse id notFoundResponse = .error msg)
        ↔ (notFoundResponse.status ≠ 200
            ∨ (notFoundResponse.status = 200 ∧ indexOfFound "text/html" "text/html" = false
                ∧ indexOfFound "text/html" "application/json" = true
                ∧ ∃ e, notFoundResponse.json = .error e))) :=
  ⟨rfl, by decide, rfl, (handleResponse_fails_iff id notFoundResponse "text/html" rfl).1⟩

/-- C11 (counterexample): a response with status 200, the content type `application/json`
and an empty body makes the handler fail, with the rejection of `res.json()`. -/
theorem handleResponse_fails_counterexample :
    emptyJsonResponse.status = 200
      ∧ emptyJsonResponse.contentType = some "application/json"
      ∧ handleResponse id emptyJsonResponse
        = .error "SyntaxError: Unexpected end of JSON input" :=
  ⟨rfl, rfl, rfl⟩

/-! ## Header merge (C12) -/

/-- C12: for every caller-supplied header map (an object: its keys are distinct), the header
map built by `collectSwaggerDocs` contains every caller entry, contains the default
`Accept` and `Content-Type` entries whose key the caller does not define, contains nothing
else and holds one entry per key; and it is the `headers` option of the fetch of the root
document, of every group document and of every generated request. -/
theorem mergeHeaders_spec (headers : List (String × String))
    (hnd : (headers.map Prod.fst).Nodup) :
    (∀ kv ∈ headers, kv ∈ mergeHeaders headers)
      ∧ (∀ d ∈ defaultHeaders, d.1 ∉ headers.map Prod.fst → d ∈ mergeHeaders headers)
      ∧ (∀ kv ∈ mergeHeaders headers,
          kv ∈ headers ∨ (kv ∈ defaultHeaders ∧ kv.1 ∉ headers.map Prod.fst))
      ∧ ((mergeHeaders headers).map Prod.fst).Nodup
      ∧ (∀ swaggerUrl, (rootFetch swaggerUrl headers).headers = mergeHeaders headers)
      ∧ (∀ swaggerUrl rootApiDetails,
          (groupFetch swaggerUrl headers rootApiDetails).headers = mergeHeaders headers)
      ∧ ∀ stringify apiBase templatePath operation args call,
          generatedFetch stringify headers apiBase templatePath operation args = .ok call →
          call.headers = mergeHeaders headers := by
  have hdef : (defaultHeaders.map Prod.fst).Nodup := by decide
  have hperm := foldl_assign_perm headers defaultHeaders hnd hdef
  have hmem : ∀ kv, kv ∈ mergeHeaders headers
      ↔ kv ∈ defaultHeaders.filter (fun e => decide (e.1 ∉ headers.map Prod.fst)) ++ headers :=
    fun kv => hperm.mem_iff
  refine ⟨?_, ?_, ?_, nodup_keys_foldl_assign headers defaultHeaders hdef, fun _ => rfl,
    fun _ _ => rfl, fun stringify apiBase templatePath operation args call h =>
      generatedFetch_headers stringify headers apiBase templatePath operation args call h⟩
  · intro kv hkv
    exact (hmem kv).mpr (List.mem_append_right _ hkv)
  · intro d hd hfree
    exact (hmem d).mpr (List.mem_append_left _ (List.mem_filter.mpr ⟨hd, by simpa using hfree⟩))
  · intro kv hkv
    rcases List.mem_append.mp ((hmem kv).mp hkv) with h | h
    · obtain ⟨h1, h2⟩ := List.mem_filter.mp h
      exact Or.inr ⟨h1, by simpa using h2⟩
    · exact Or.inl h

/-- C12 at a concrete header map: the caller redefines `Accept` and adds `Authorization`. -/
theorem mergeHeaders_spec_witness :
    (callerHeaders.map Prod.fst).Nodup
      ∧ mergeHeaders callerHeaders
        = [("Accept", "text/plain"), ("Content-Type", "application/json"),
            ("Authorization", "Bearer token")]
      ∧ (∀ kv ∈ callerHeaders, kv ∈ mergeHeaders callerHeaders)
      ∧ (∀ kv ∈ mergeHeaders callerHeaders,
          kv ∈ callerHeaders ∨ (kv ∈ defaultHeaders ∧ kv.1 ∉ callerHeaders.map Prod.fst)) :=
  ⟨by decide, rfl, (mergeHeaders_spec callerHeaders (by decide)).1,
    (mergeHeaders_spec callerHeaders (by decide)).2.2.1⟩

/-! ## Missing query template (C13) -/

/-- C13 (evaluation at the failing input): for notes without a `?` template and the query
`{limit: 10}`, `formatQuery` aborts with the `TypeError` of indexing the `null` match, and so does the
generated method of an operation with such notes and a declared `query` parameter; the
same holds for every query object whenever the match fails. -/
theorem formatQuery_missing_template_throws :
    formatQuery (some (.obj [("limit", .num 10)])) "List all users"
        = .error "TypeError: Cannot read properties of null (reading '0')"
      ∧ requestUrl "" "/users" usersOperation [.obj [("limit", .num 10)]]
        = .error "TypeError: Cannot read properties of null (reading '0')"
      ∧ ∀ (props : List (String × Value)) (notes : String),
          matchTemplate notes.toList = none →
          formatQuery (some (.obj props)) notes
            = .error "TypeError: Cannot read properties of null (reading '0')" := by
  refine ⟨rfl, rfl, ?_⟩
  intro props notes hnone
  unfold formatQuery
  simp only [Value.truthy, Bool.not_true, Bool.false_eq_true, if_false, hnone]

/-! ## Absent query (C14) -/

/-- C14: for every notes string `formatQuery` called with an absent query returns the empty
string, and a call whose classified query is undefined and which passes validation has the
request URL `apiBase` followed by the substituted path. -/
theorem formatQuery_absent_query :
    (∀ notes : String, formatQuery none notes = .ok "")
      ∧ ∀ (apiBase templatePath : String) (operation : Operation) (args urlArgs : List Value)
          (body : Option Value),
          formatArgs args operation.method operation.parameters = .ok (urlArgs, none, body) →
          validateUrlArgs (operation.parameters.filter (fun param => param.paramType = .path))
            urlArgs = .ok () →
          (∀ b, body = some b →
            validateBodyArgs (operation.parameters.filter (fun param => param.paramType = .body))
              b = .ok ()) →
          requestUrl apiBase templatePath operation args
            = .ok (apiBase ++ substitutePath
                (operation.parameters.filter (fun param => param.paramType = .path))
                urlArgs templatePath) := by
  refine ⟨fun _ => rfl, ?_⟩
  intro apiBase templatePath operation args urlArgs body hf hu hb
  unfold requestUrl
  simp only [hf, bind, Except.bind, hu]
  cases body with
  | none =>
    simp only [pure, Except.pure, formatQuery, String.append_empty]
  | some b =>
    by_cases ht : b.truthy = true
    · simp only [ht, if_true, hb b rfl, pure, Except.pure, formatQuery, String.append_empty]
    · simp only [ht, Bool.false_eq_true, if_false, pure, Except.pure, formatQuery,
        String.append_empty]

/-- C14 at a concrete call: `(42, 7)` on the operation with the path parameters `id` and
`postId` and notes without a template. -/
theorem formatQuery_absent_query_witness :
    formatQuery none postOperation.notes = .ok ""
      ∧ requestUrl "http://api" "/users/{id}/posts/{postId}" postOperation [.num 42, .num 7]
        = .ok ("http://api" ++ substitutePath
            (postOperation.parameters.filter (fun param => param.paramType = .path))
            [.num 7, .num 42] "/users/{id}/posts/{postId}") :=
  ⟨formatQuery_absent_query.1 postOperation.notes,
    formatQuery_absent_query.2 "http://api" "/users/{id}/posts/{postId}" postOperation
      [.num 42, .num 7] [.num 7, .num 42] none rfl rfl (fun b hb => by cases hb)⟩

/-! ## Position of the query and body objects (C15) -/

/-- C15 (amended): for every parameter list, every list of scalars `s`, every object `q`
with at least one key whose keys are all declared `query` names and name no declared
parameter of another `paramType`, and every object `b` with at least one key whose keys are
all declared `body` names and name no declared parameter of another `paramType`, the calls
`(...s, q, b)`, `(...s, b, q)` and `(q, ...s, b)` all return the path list `s` reversed, the
query `q` and the body `b`; the call `(...s, b)` returns the body `b` and an undefined
query. -/
theorem formatArgs_position_independent (s : List Value) (q b : List (String × Value))
    (method : String) (params : List Parameter)
    (hs : ∀ a ∈ s, a.typeofObject = false)
    (hqkey : q ≠ [])
    (hqall : ∀ k ∈ q.map Prod.fst, ∃ p ∈ params, p.name = k ∧ p.paramType = .query)
    (hqonly : ∀ p ∈ params, p.name ∈ q.map Prod.fst → p.paramType = .query)
    (hbkey : b ≠ [])
    (hball : ∀ k ∈ b.map Prod.fst, ∃ p ∈ params, p.name = k ∧ p.paramType = .body)
    (hbonly : ∀ p ∈ params, p.name ∈ b.map Prod.fst → p.paramType = .body) :
    formatArgs (s ++ [.obj q, .obj b]) method params
        = .ok (s.reverse, some (.obj q), some (.obj b))
      ∧ formatArgs (s ++ [.obj b, .obj q]) method params
        = .ok (s.reverse, some (.obj q), some (.obj b))
      ∧ formatArgs ([.obj q] ++ s ++ [.obj b]) method params
        = .ok (s.reverse, some (.obj q), some (.obj b))
      ∧ formatArgs (s ++ [.obj b]) method params = .ok (s.reverse, none, some (.obj b)) := by
  have hdq := determineArgTypes_exclusive q params .query hqkey hqall hqonly
  have hdb := determineArgTypes_exclusive b params .body hbkey hball hbonly
  have hsr : ∀ a ∈ s.reverse, a.typeofObject = false :=
    fun a ha => hs a (List.mem_reverse.mp ha)
  refine ⟨?_, ?_, ?_, ?_⟩
  · have hrev : (s ++ [Value.obj q, Value.obj b]).reverse
        = Value.obj b :: Value.obj q :: s.reverse := by simp
    rw [formatArgs_eq_loop, hrev, formatArgsLoop_cons, formatArgsStep_obj params _ b _ hdb]
    show (formatArgsLoop params (Value.obj q :: s.reverse) _).bind _ = _
    rw [formatArgsLoop_cons, formatArgsStep_obj params _ q _ hdq]
    show (formatArgsLoop params s.reverse _).bind _ = _
    rw [formatArgsLoop_scalars params s.reverse _ hsr]
    simp [Except.bind]
  · have hrev : (s ++ [Value.obj b, Value.obj q]).reverse
        = Value.obj q :: Value.obj b :: s.reverse := by simp
    rw [formatArgs_eq_loop, hrev, formatArgsLoop_cons, formatArgsStep_obj params _ q _ hdq]
    show (formatArgsLoop params (Value.obj b :: s.reverse) _).bind _ = _
    rw [formatArgsLoop_cons, formatArgsStep_obj params _ b _ hdb]
    show (formatArgsLoop params s.reverse _).bind _ = _
    rw [formatArgsLoop_scalars params s.reverse _ hsr]
    simp [Except.bind]
  · have hrev : ([Value.obj q] ++ s ++ [Value.obj b]).reverse
        = Value.obj b :: (s.reverse ++ [Value.obj q]) := by simp
    rw [formatArgs_eq_loop, hrev, formatArgsLoop_cons, formatArgsStep_obj params _ b _ hdb]
    show (formatArgsLoop params (s.reverse ++ [Value.obj q]) _).bind _ = _
    rw [formatArgsLoop_append, formatArgsLoop_scalars params s.reverse _ hsr]
    show (formatArgsLoop params [Value.obj q] _).bind _ = _
    rw [formatArgsLoop_cons, formatArgsStep_obj params _ q _ hdq]
    simp [Except.bind, formatArgsLoop, pure, Except.pure]
  · have hrev : (s ++ [Value.obj b]).reverse = Value.obj b :: s.reverse := by simp
    rw [formatArgs_eq_loop, hrev, formatArgsLoop_cons, formatArgsStep_obj params _ b _ hdb]
    show (formatArgsLoop params s.reverse _).bind _ = _
    rw [formatArgsLoop_scalars params s.reverse _ hsr]
    simp [Except.bind]

/-- C15 at a concrete call: the scalar `42`, the query `{limit: 10}` and the body
`{name: "x"}` against `itemParams`. -/
theorem formatArgs_position_independent_witness :
    formatArgs ([.num 42] ++ [.obj [("limit", .num 10)], .obj [("name", .str "x")]])
        "POST" itemParams
        = .ok ([Value.num 42].reverse, some (.obj [("limit", .num 10)]),
            some (.obj [("name", .str "x")]))
      ∧ formatArgs ([.num 42] ++ [.obj [("name", .str "x")], .obj [("limit", .num 10)]])
        "POST" itemParams
        = .ok ([Value.num 42].reverse, some (.obj [("limit", .num 10)]),
            some (.obj [("name", .str "x")]))
      ∧ formatArgs ([.obj [("limit", .num 10)]] ++ [.num 42] ++ [.obj [("name", .str "x")]])
        "POST" itemParams
        = .ok ([Value.num 42].reverse, some (.obj [("limit", .num 10)]),
            some (.obj [("name", .str "x")]))
      ∧ formatArgs ([.num 42] ++ [.obj [("name", .str "x")]]) "POST" itemParams
        = .ok ([Value.num 42].reverse, none, some (.obj [("name", .str "x")])) :=
  formatArgs_position_independent [.num 42] [("limit", .num 10)] [("name", .str "x")] "POST"
    itemParams (by simp [Value.typeofObject]) (by simp) (by simp [itemParams])
    (by simp [itemParams]) (by simp) (by simp [itemParams]) (by simp [itemParams])

/-- C15 (counterexample): `limit` is declared as a `query` parameter and, after it, as a
`header` parameter, and `name` as a `body` parameter. The keys of `{limit: 10}` are declared
`query` names and are not `path` or `body` names, yet the object ties `query` with `header`,
is stored under `header` and is not returned: the calls `(42, q, b)`, `(42, b, q)` and
`(q, 42, b)` all return an undefined query. -/
theorem formatArgs_position_independent_counterexample :
    formatArgs ([.num 42] ++ [.obj [("limit", .num 10)], .obj [("name", .str "x")]]) "POST"
        [⟨"limit", .query⟩, ⟨"limit", .other "header"⟩, ⟨"name", .body⟩]
        = .ok ([.num 42], none, some (.obj [("name", .str "x")]))
      ∧ formatArgs ([.num 42] ++ [.obj [("name", .str "x")], .obj [("limit", .num 10)]]) "POST"
        [⟨"limit", .query⟩, ⟨"limit", .other "header"⟩, ⟨"name", .body⟩]
        = .ok ([.num 42], none, some (.obj [("name", .str "x")]))
      ∧ formatArgs ([.obj [("limit", .num 10)]] ++ [.num 42] ++ [.obj [("name", .str "x")]])
        "POST" [⟨"limit", .query⟩, ⟨"limit", .other "header"⟩, ⟨"name", .body⟩]
        = .ok ([.num 42], none, some (.obj [("name", .str "x")])) :=
  ⟨rfl, rfl, rfl⟩

/-! ## Right-to-left path list (C16) -/

/-- C16: for every argument list that consists of scalars only and every parameter list,
`formatArgs` returns the argument list in reversed order as the path list, with the query
and the body undefined. -/
theorem formatArgs_scalars_reversed (args : List Value) (method : String)
    (params : List Parameter) (hscalar : ∀ a ∈ args, a.typeofObject = false) :
    formatArgs args method params = .ok (args.reverse, none, none) := by
  rw [formatArgs_eq_loop,
    formatArgsLoop_scalars params args.reverse _ (fun a ha => hscalar a (List.mem_reverse.mp ha))]
  simp [Except.bind]

/-- C16 at a concrete call: `(42, "a", true)` gives the path list `[true, "a", 42]`. -/
theorem formatArgs_scalars_reversed_witness :
    (∀ a ∈ [Value.num 42, .str "a", .bool true], a.typeofObject = false)
      ∧ formatArgs [.num 42, .str "a", .bool true] "GET" itemParams
        = .ok ([.bool true, .str "a", .num 42], none, none) :=
  ⟨by simp [Value.typeofObject],
    formatArgs_scalars_reversed [.num 42, .str "a", .bool true] "GET" itemParams
      (by simp [Value.typeofObject])⟩

/-! ## No argument lost (C17) -/

/-- C17 (evaluation at the failing input): with the empty parameter list the call `({a: 1})`
returns an empty path list and undefined query and body, so the argument is in none of the
three components; the same happens to `({limit: 10})` when `limit` is declared with the
`paramType` `header`. For every non-empty parameter list whose `paramType`s are `path`,
`query` or `body` and every argument list without `null` the three components together
hold as many values as the call has arguments. -/
theorem formatArgs_loses_object_without_params :
    formatArgs [.obj [("a", .num 1)]] "GET" [] = .ok ([], none, none)
      ∧ formatArgs [.obj [("limit", .num 10)]] "GET" [⟨"limit", .other "header"⟩]
        = .ok ([], none, none)
      ∧ ∀ (args : List Value) (method : String) (params : List Parameter),
          params ≠ [] →
          (∀ p ∈ params,
            p.paramType = .path ∨ p.paramType = .query ∨ p.paramType = .body) →
          (∀ a ∈ args, a ≠ Value.null) →
          ∃ path query body, formatArgs args method params = .ok (path, query, body)
            ∧ path.length + definedCount query + definedCount body = args.length := by
  refine ⟨rfl, rfl, ?_⟩
  intro args method params hne hbasic hnn
  obtain ⟨final, hfinal⟩ := formatArgsLoop_ok params args.reverse
    { path := [], query := none, body := none, others := [] }
    (fun a ha => hnn a (List.mem_reverse.mp ha))
  have hcount := formatArgsLoop_count params args.reverse _ final hfinal
  have hund := formatArgsLoop_others params args.reverse _ final hne hbasic rfl hfinal
  refine ⟨final.path, final.query, final.body, ?_, ?_⟩
  · rw [formatArgs_eq_loop, hfinal]
    rfl
  · rw [hund] at hcount
    have hzero : definedCount none = 0 := rfl
    simp only [hzero, List.length_nil, List.length_reverse] at hcount
    omega

end SwaggerApiClient
